import Mathlib

/-!
# Aych.FCbuffer `src/types.js`: a shallow embedding and its verification

The module builds *serializers* (four operations: `fromByteBuffer`,
`appendByteBuffer`, `fromObject`, `toObject`) from a *validation descriptor*.
JavaScript values are embedded as the inductive type `JsVal`, a thrown
`Error` as a value of `Err` carried by `Except`, and the byte cursor as the
record `ByteBuffer`, passed explicitly through every wire operation.
-/

namespace FCBuffer

/-! ## Values -/

/-- One octet of a `Buffer` or of the byte cursor. -/
abbrev Byte := Fin 256

/-- The JavaScript values the serializers are applied to.
`num n` is a native number holding the integer `n` (every integer of
magnitude below `2^53` is held by one, and above that those of 53
significant binary digits); its text form `String(n)` is `numberString n`,
which reads any other `n` as the nearest number; `nan` is the number `NaN`; `long n` is a 64-bit `Long` of the
bytebuffer library; `buf` is a Node `Buffer`; `arr` is an array; `date ms`
is a `Date` whose `getTime()` is `ms`. -/
inductive JsVal where
  | null
  | undefined
  | bool (b : Bool)
  | num (n : Int)
  | nan
  | str (s : String)
  | long (n : Int)
  | buf (bs : List Byte)
  | arr (xs : List JsVal)
  | date (ms : Int)

instance : Inhabited JsVal := ⟨JsVal.null⟩

/-- The errors raised inside `types.js`, one constructor per `throw` of the
source, carrying what its message names (`Err.message` renders the text).
`typeError` stands for a `TypeError` (raised by the source or by the
platform), `rangeError` for a cursor read past its limit, `other` for any
error of an external collaborator. -/
inductive Err where
  | required (typeName : String)
  | lenNeedsLength
  | lengthNotEqual (typeName : String) (actual len : Nat)
  | maxLenNeedsLength
  | lengthExceeds (typeName : String) (actual maxLen : Nat)
  | overflow (typeName : String) (value : JsVal) (max min : Int) (signed : Bool) (bits : Nat)
  | unknownDateType (value : JsVal)
  | typeError (msg : String)
  | rangeError (msg : String)
  | other (msg : String)

/-- JavaScript `value == null`: true exactly for `null` and `undefined`
(`const isEmpty = value => value == null`). -/
def isEmpty : JsVal → Bool
  | .null => true
  | .undefined => true
  | _ => false

/-- JavaScript `typeof value === 'string'`. -/
def JsVal.isString : JsVal → Bool
  | .str _ => true
  | _ => false

/-- JavaScript `typeof value === 'number'`. -/
def JsVal.isNumber : JsVal → Bool
  | .num _ => true
  | .nan => true
  | _ => false

/-- Number of UTF-16 code units of one character. -/
def utf16Size (c : Char) : Nat := if c.toNat < 65536 then 1 else 2

/-- JavaScript `s.length` of a string: its number of UTF-16 code units. -/
def utf16Length (s : String) : Nat := (s.data.map utf16Size).sum

/-- JavaScript `value.length`, for the values that have the property
(strings, buffers, arrays); `none` stands for `undefined`. -/
def JsVal.length : JsVal → Option Nat
  | .str s => some (utf16Length s)
  | .buf bs => some bs.length
  | .arr xs => some xs.length
  | _ => none

/-! ## Decimal text and the big-integer comparator -/

/-- The character of a decimal digit. -/
def digitChar (d : Nat) : Char := Char.ofNat (48 + d)

/-- Decimal digits of `n`, least significant first; `fuel` bounds their number. -/
def digitsLE : Nat → Nat → List Nat
  | 0, _ => []
  | fuel + 1, n => if n < 10 then [n] else (n % 10) :: digitsLE fuel (n / 10)

/-- Decimal numeral of a natural number. -/
def decimalNat (n : Nat) : List Char := ((digitsLE (n + 1) n).reverse).map digitChar

/-- JavaScript `String(v)` of an integer `v`: its decimal numeral. -/
def decimalString : Int → String
  | Int.ofNat n => String.mk (decimalNat n)
  | Int.negSucc n => String.mk ('-' :: decimalNat (n + 1))

/-- Number of binary digits of `n`; `fuel` bounds their number. -/
def bitLength : Nat → Nat → Nat
  | 0, _ => 0
  | fuel + 1, n => if n = 0 then 0 else bitLength fuel (n / 2) + 1

/-- The integer a native number holds when it is given the integer `a`: `a`
itself below `2^53`, and otherwise `a` rounded to 53 significant binary
digits, a tie going to the even neighbour (IEEE 754 binary64). -/
def roundDouble (a : Nat) : Nat :=
  if a < 2 ^ 53 then a
  else
    let e := bitLength a a - 53
    let q := a / 2 ^ e
    let r := a % 2 ^ e
    if 2 * r > 2 ^ e ∨ (2 * r = 2 ^ e ∧ q % 2 = 1) then (q + 1) * 2 ^ e else q * 2 ^ e

/-- The decimal integer with the fewest significant digits that rounds to the
number `x`, searched among the multiples of `10^j` from the given `j`
downwards; of two such multiples the one closer to `x` is taken, and the
one with the even last digit when they are equally close (ECMAScript
`Number::toString`). -/
def shortestDecimal (x : Nat) : Nat → Nat
  | 0 => x
  | j + 1 =>
    let w1 := x / 10 ^ (j + 1) * 10 ^ (j + 1)
    let w2 := w1 + 10 ^ (j + 1)
    if roundDouble w1 = x ∧ roundDouble w2 = x then
      if x - w1 < w2 - x then w1
      else if w2 - x < x - w1 then w2
      else if x / 10 ^ (j + 1) % 2 = 0 then w1 else w2
    else if roundDouble w1 = x then w1
    else if roundDouble w2 = x then w2
    else shortestDecimal x j

/-- A run of digits without its trailing zeros. -/
def stripZeros (ds : List Char) : List Char :=
  (ds.reverse.dropWhile (fun c => c = '0')).reverse

/-- ECMAScript's exponent form of a decimal integer of more than 21 digits:
the first digit, a dot and the other significant digits when there are any,
then `e+` and the exponent. -/
def exponentText (ds : List Char) : List Char :=
  match ds with
  | [] => []
  | d :: rest =>
    match stripZeros rest with
    | [] => d :: 'e' :: '+' :: decimalNat rest.length
    | frac => d :: '.' :: frac ++ 'e' :: '+' :: decimalNat rest.length

/-- JavaScript `String(x)` of the native number given the magnitude `a`: the
decimal numeral of `a` below `2^53`, and from there the shortest decimal
that rounds to the same number, written out in full up to 21 digits and in
exponent form beyond (`Infinity` when the number has more than 1024 binary
digits). -/
def numberText (a : Nat) : List Char :=
  if a < 2 ^ 53 then decimalNat a
  else if bitLength (roundDouble a) (roundDouble a) > 1024 then
    ['I', 'n', 'f', 'i', 'n', 'i', 't', 'y']
  else
    let ds := decimalNat (shortestDecimal (roundDouble a) (decimalNat (roundDouble a)).length)
    if ds.length ≤ 21 then ds else exponentText ds

/-- JavaScript `String(v)` of a native number given the integer `v`. -/
def numberString : Int → String
  | Int.ofNat n => String.mk (numberText n)
  | Int.negSucc n => String.mk ('-' :: numberText (n + 1))

/-- JavaScript `String(value)`, for the values whose text form the embedding
covers: numbers, Longs, strings and booleans (`none` otherwise). -/
def jsString : JsVal → Option String
  | .num n => some (numberString n)
  | .long n => some (decimalString n)
  | .str s => some s
  | .nan => some "NaN"
  | .bool b => some (if b then "true" else "false")
  | _ => none

/-- The text the source passes to `new Error(...)` (for an error of the
platform or of a collaborator, the text it carries). -/
def Err.message : Err → String
  | .required typeName => "Required " ++ typeName
  | .lenNeedsLength => "len validation requries a \"length\" property"
  | .lengthNotEqual typeName actual len =>
    typeName ++ " length " ++ decimalString actual ++ " does not equal " ++ decimalString len
  | .maxLenNeedsLength => "maxLen validation requries a \"length\" property"
  | .lengthExceeds typeName actual maxLen =>
    typeName ++ " length " ++ decimalString actual ++ " exceeds maxLen " ++ decimalString maxLen
  | .overflow typeName value max min signed bits =>
    "Overflow " ++ typeName ++ " " ++ (jsString value).getD "" ++ ", max " ++ decimalString max ++
      ", min " ++ decimalString min ++ ", signed " ++ (if signed then "true" else "false") ++
      ", bits " ++ decimalString bits
  | .unknownDateType value => "Unknown date type: " ++ (jsString value).getD ""
  | .typeError msg => msg
  | .rangeError msg => msg
  | .other msg => msg

/-- One step of reading a decimal numeral: the digit `c` appended to `acc`. -/
def parseStep (acc : Option Nat) (c : Char) : Option Nat :=
  match acc with
  | some r => if 48 ≤ c.toNat ∧ c.toNat ≤ 57 then some (r * 10 + (c.toNat - 48)) else none
  | none => none

/-- Value of a run of decimal digits, most significant first (`none` when a
character is not a digit). -/
def parseDigits (cs : List Char) : Option Nat := cs.foldl parseStep (some 0)

/-- Modelled from the spec: the Big-Integer Comparator (bn.js, an external
collaborator) constructs an arbitrary-precision integer from the decimal
string form of a value: an optional leading `-` followed by decimal digits.
Text that is not of this form has no integer (`none`). -/
def BN.ofString (s : String) : Option Int :=
  match s.data with
  | [] => some 0
  | c :: cs =>
    if c = '-' then (parseDigits cs).map (fun n => - (n : Int))
    else (parseDigits (c :: cs)).map (fun n => (n : Int))

/-! ## Cursor, serializer contract, validation descriptor and validation engine -/

/-- The byte cursor (bytebuffer.js, an external collaborator), as far as the
serializers observe it. -/
structure ByteBuffer where
  /-- Byte order of the fixed-width integer primitives. -/
  littleEndian : Bool
  /-- For a cursor being written: the bytes written so far (up to its
  offset). For a cursor being read: the bytes not yet consumed (from its
  offset to its limit). -/
  bytes : List Byte

/-- The cursor after `xs` has been written at its offset. -/
def ByteBuffer.append (b : ByteBuffer) (xs : List Byte) : ByteBuffer :=
  { b with bytes := b.bytes ++ xs }

/-- A read cursor holding `xs`. -/
def ByteBuffer.withBytes (b : ByteBuffer) (xs : List Byte) : ByteBuffer :=
  { b with bytes := xs }

/-- The serializer contract: an object with the four operations. A wire
operation takes the cursor and returns the cursor it leaves; a thrown error
is `Except.error`. -/
structure Serializer where
  fromByteBuffer : ByteBuffer → Except Err (JsVal × ByteBuffer)
  appendByteBuffer : ByteBuffer → JsVal → Except Err ByteBuffer
  fromObject : JsVal → Except Err JsVal
  toObject : JsVal → Except Err JsVal

/-- A value handed to `Vector` or `Optional` as inner type: either a value
that is not an object with methods (`value`), or an object holding some of
the four operations as functions (`object`; `none` is a property that is
missing or is not a function). -/
inductive TypeArg where
  | value (v : JsVal)
  | object
      (fromByteBuffer : Option (ByteBuffer → Except Err (JsVal × ByteBuffer)))
      (appendByteBuffer : Option (ByteBuffer → JsVal → Except Err ByteBuffer))
      (fromObject : Option (JsVal → Except Err JsVal))
      (toObject : Option (JsVal → Except Err JsVal))

/-- A serializer seen as an inner-type argument. -/
def TypeArg.ofSerializer (s : Serializer) : TypeArg :=
  .object (some s.fromByteBuffer) (some s.appendByteBuffer) (some s.fromObject) (some s.toObject)

/-- The validation descriptor: the partial descriptor of the `types` table
merged with the configuration and the type name. An absent key is `none`. -/
structure Validation where
  typeName : String
  defaults : Bool
  debug : Bool
  len : Option Nat := none
  maxLen : Option Nat := none
  signed : Option Bool := none
  bits : Option Nat := none
  type : Option TypeArg := none

/-- The source's `validate(value, validation)`: required-ness, then the exact
length `len`, then the bound `maxLen`. -/
def validate (value : JsVal) (validation : Validation) : Except Err Unit := do
  if isEmpty value then
    throw (Err.required validation.typeName)
  match validation.len with
  | some len =>
    match value.length with
    | none => throw Err.lenNeedsLength
    | some l => if l ≠ len then throw (Err.lengthNotEqual validation.typeName l len)
  | none => pure ()
  match validation.maxLen with
  | some maxLen =>
    match value.length with
    | none => throw Err.maxLenNeedsLength
    | some l => if l > maxLen then throw (Err.lengthExceeds validation.typeName l maxLen)
  | none => pure ()

/-- The source's `maxUnsigned`: `new BN(1).ishln(bits).isub(ONE)`. -/
def maxUnsigned (bits : Nat) : Int := 1 * 2 ^ bits - 1
/-- The source's `maxSigned`: `new BN(1).ishln(bits - 1).isub(ONE)`. -/
def maxSigned (bits : Nat) : Int := 1 * 2 ^ (bits - 1) - 1
/-- The source's `minSigned`: `new BN(1).ishln(bits - 1).ineg()`. -/
def minSigned (bits : Nat) : Int := - (1 * 2 ^ (bits - 1))

/-- The source's `noOverflow(value, validation)`: required-ness, then the
comparison of `new BN(String(value))` with `[min, max]`; `signed` defaults
to `false` and `bits` to `54`. -/
def noOverflow (value : JsVal) (validation : Validation) : Except Err Unit := do
  if isEmpty value then
    throw (Err.required validation.typeName)
  let signed := validation.signed.getD false
  let bits := validation.bits.getD 54
  let max := if signed then maxSigned bits else maxUnsigned bits
  let min := if signed then minSigned bits else 0
  match (jsString value).bind BN.ofString with
  | none => throw (Err.other "Invalid character")
  | some i =>
    if i < min ∨ i > max then
      throw (Err.overflow validation.typeName value max min signed bits)

/-! ## Byte cursor primitives -/

/-- The `k` low-order bytes of `n`, least significant first. -/
def bytesLE : Nat → Nat → List Byte
  | 0, _ => []
  | k + 1, n => Fin.ofNat (n % 256) :: bytesLE k (n / 256)

/-- The number held by a run of bytes, least significant first. -/
def natOfBytesLE : List Byte → Nat
  | [] => 0
  | x :: xs => x.val + 256 * natOfBytesLE xs

/-- The `bits / 8` bytes of the low `bits` bits of `n` (two's complement), in
the byte order of the cursor. -/
def encodeFixed (littleEndian : Bool) (bits : Nat) (n : Int) : List Byte :=
  let l := bytesLE (bits / 8) (n % (2 : Int) ^ bits).toNat
  if littleEndian then l else l.reverse

/-- The integer read back from `bits / 8` bytes. -/
def decodeFixed (littleEndian signed : Bool) (bits : Nat) (xs : List Byte) : Int :=
  let u := natOfBytesLE (if littleEndian then xs else xs.reverse)
  if signed ∧ 2 ^ (bits - 1) ≤ u then (u : Int) - (2 : Int) ^ bits else (u : Int)

/-- The source's `intbufType`: the suffix of the cursor method,
`Int`/`Uint` (`signed` defaults to `false`) followed by `bits`. -/
def intbufType (validation : Validation) : Bool × Option Nat :=
  (validation.signed.getD false, validation.bits)

/-- Modelled from the spec: the Long library's `fromNumber`, which clamps a
number to the signed 64-bit range. -/
def longFromNumber (n : Int) : Int :=
  if n ≤ -(2 : Int) ^ 63 then -(2 : Int) ^ 63
  else if n + 1 ≥ (2 : Int) ^ 63 then (2 : Int) ^ 63 - 1 else n

/-- Modelled from the spec: the Byte Cursor's fixed-width integer write
`b.write<Int|Uint><bits>(value)` (bytebuffer.js, an external collaborator).
The widths 8, 16 and 32 take an integer number and store its low `bits`
bits without any range check; the width 64 takes a number, a decimal string
or a Long. No other width has a method. -/
def ByteBuffer.writeInt (b : ByteBuffer) (ty : Bool × Option Nat) (value : JsVal) :
    Except Err ByteBuffer :=
  match ty.2 with
  | some 8 | some 16 | some 32 =>
    match value with
    | .num n => pure (b.append (encodeFixed b.littleEndian (ty.2.getD 0) n))
    | _ => throw (Err.typeError "Illegal value (not an integer)")
  | some 64 =>
    match value with
    | .num n => pure (b.append (encodeFixed b.littleEndian 64 (longFromNumber n)))
    | .long n => pure (b.append (encodeFixed b.littleEndian 64 n))
    | .str s =>
      match BN.ofString s with
      | some n => pure (b.append (encodeFixed b.littleEndian 64 n))
      | none => throw (Err.other "Long.fromString")
    | _ => throw (Err.typeError "Illegal value (not an integer or Long)")
  | _ => throw (Err.typeError "b.write is not a function")

/-- Modelled from the spec: the Byte Cursor's fixed-width integer read
`b.read<Int|Uint><bits>()`; the width 64 returns a Long. -/
def ByteBuffer.readInt (b : ByteBuffer) (ty : Bool × Option Nat) :
    Except Err (JsVal × ByteBuffer) :=
  match ty.2 with
  | some 8 | some 16 | some 32 | some 64 =>
    let bits := ty.2.getD 0
    if b.bytes.length < bits / 8 then throw (Err.rangeError "Illegal offset")
    else
      let n := decodeFixed b.littleEndian ty.1 bits (b.bytes.take (bits / 8))
      pure (if bits = 64 then JsVal.long n else JsVal.num n, b.withBytes (b.bytes.drop (bits / 8)))
  | _ => throw (Err.typeError "b.read is not a function")

/-- Bytes of the varint (base-128, least significant group first, high bit
set on every byte but the last) of `n`; `fuel` bounds their number. -/
def varintBytes : Nat → Nat → List Byte
  | 0, _ => []
  | fuel + 1, n =>
    if n < 128 then [Fin.ofNat n] else Fin.ofNat (n % 128 + 128) :: varintBytes fuel (n / 128)

/-- Modelled from the spec: the Byte Cursor's `writeVarint32`, the
variable-length encoding of an unsigned integer. -/
def ByteBuffer.writeVarint32 (b : ByteBuffer) (n : Nat) : ByteBuffer :=
  b.append (varintBytes (n + 1) n)

/-- Decoding of a varint from a run of bytes: the value and the bytes left. -/
def readVarint : List Byte → Option (Nat × List Byte)
  | [] => none
  | x :: xs =>
    if x.val < 128 then some (x.val, xs)
    else match readVarint xs with
      | some (hi, rest) => some (x.val - 128 + 128 * hi, rest)
      | none => none

/-- Modelled from the spec: the Byte Cursor's `readVarint32`. -/
def ByteBuffer.readVarint32 (b : ByteBuffer) : Except Err (Nat × ByteBuffer) :=
  match readVarint b.bytes with
  | some (n, rest) => pure (n, b.withBytes rest)
  | none => throw (Err.rangeError "Truncated")

/-- Modelled from the spec: the Byte Cursor's single-byte write `writeUint8`. -/
def ByteBuffer.writeUint8 (b : ByteBuffer) (n : Nat) : ByteBuffer :=
  b.append [Fin.ofNat n]

/-- Modelled from the spec: the Byte Cursor's single-byte read `readUint8`. -/
def ByteBuffer.readUint8 (b : ByteBuffer) : Except Err (Nat × ByteBuffer) :=
  match b.bytes with
  | [] => throw (Err.rangeError "Illegal offset")
  | x :: xs => pure (x.val, b.withBytes xs)

/-- UTF-8 bytes of a string. -/
def utf8Bytes (s : String) : List Byte :=
  s.data.flatMap (fun c => (String.utf8EncodeChar c).map (fun u => u.val))

/-- Modelled from the spec: the Byte Cursor's length-prefixed string write
`writeVString`: the varint of the UTF-8 length, then the UTF-8 bytes. -/
def ByteBuffer.writeVString (b : ByteBuffer) (s : String) : ByteBuffer :=
  (b.writeVarint32 (utf8Bytes s).length).append (utf8Bytes s)

/-- Modelled from the spec: the Byte Cursor's length-prefixed string read
`readVString`. -/
def ByteBuffer.readVString (b : ByteBuffer) : Except Err (JsVal × ByteBuffer) := do
  let (n, b1) ← b.readVarint32
  if b1.bytes.length < n then throw (Err.rangeError "Illegal offset")
  match String.fromUTF8? ⟨((b1.bytes.take n).map (fun x => UInt8.mk x)).toArray⟩ with
  | some s => pure (JsVal.str s, b1.withBytes (b1.bytes.drop n))
  | none => throw (Err.rangeError "Illegal UTF-8")

/-! ## Integer serializers (`intbuf`) -/

/-- The source's `Long.isLong(value) ? value.toString() : value`. -/
def longToString : JsVal → JsVal
  | .long n => .str (decimalString n)
  | v => v

/-- The source's `intbuf(validation).fromByteBuffer`. -/
def intbuf.fromByteBuffer (validation : Validation) (b : ByteBuffer) :
    Except Err (JsVal × ByteBuffer) := do
  let (value, b1) ← b.readInt (intbufType validation)
  pure (longToString value, b1)

/-- The source's `intbuf(validation).appendByteBuffer`: the range check is
commented out, the value goes straight to the cursor. -/
def intbuf.appendByteBuffer (validation : Validation) (b : ByteBuffer) (value : JsVal) :
    Except Err ByteBuffer :=
  b.writeInt (intbufType validation) value

/-- The source's `intbuf(validation).fromObject`. -/
def intbuf.fromObject (validation : Validation) (value : JsVal) : Except Err JsVal := do
  noOverflow value validation
  pure value

/-- The source's `intbuf(validation).toObject`. -/
def intbuf.toObject (validation : Validation) (value : JsVal) : Except Err JsVal := do
  if validation.defaults ∧ isEmpty value then
    return (if validation.bits.getD 0 > 53 then JsVal.str "0" else JsVal.num 0)
  noOverflow value validation
  pure (longToString value)

/-- The source's `intbuf = (validation) => ({...})`. -/
def intbuf (validation : Validation) : Serializer where
  fromByteBuffer := intbuf.fromByteBuffer validation
  appendByteBuffer := intbuf.appendByteBuffer validation
  fromObject := intbuf.fromObject validation
  toObject := intbuf.toObject validation

/-! ## Byte serializers (`bytebuf`) -/

/-- Lowercase hexadecimal digit of `d < 16`. -/
def hexChar (d : Nat) : Char := if d < 10 then Char.ofNat (48 + d) else Char.ofNat (87 + d)

/-- Node's `buffer.toString('hex')`: two lowercase digits per byte. -/
def hexEncode : List Byte → List Char
  | [] => []
  | x :: xs => hexChar (x.val / 16) :: hexChar (x.val % 16) :: hexEncode xs

/-- Value of a hexadecimal digit of either case. -/
def hexValue (c : Char) : Option Nat :=
  if 48 ≤ c.toNat ∧ c.toNat ≤ 57 then some (c.toNat - 48)
  else if 97 ≤ c.toNat ∧ c.toNat ≤ 102 then some (c.toNat - 87)
  else if 65 ≤ c.toNat ∧ c.toNat ≤ 70 then some (c.toNat - 55)
  else none

/-- Node's `Buffer.from(text, 'hex')`: one byte per pair of hexadecimal
digits, stopping at the first pair that is not one. -/
def hexDecode : List Char → List Byte
  | c1 :: c2 :: cs =>
    match hexValue c1, hexValue c2 with
    | some h, some l => Fin.ofNat (16 * h + l) :: hexDecode cs
    | _, _ => []
  | _ => []

/-- The bytes `value.toString('binary')` hands to the cursor: those of a
`Buffer`, or the character codes of a string when all are below 256. -/
def binaryBytes : JsVal → Option (List Byte)
  | .buf bs => some bs
  | .str s => if s.data.all (fun c => c.toNat < 256) then some (s.data.map (fun c => Fin.ofNat c.toNat)) else none
  | _ => none

/-- The source's `bytebuf(validation).fromByteBuffer`. -/
def bytebuf.fromByteBuffer (validation : Validation) (b : ByteBuffer) :
    Except Err (JsVal × ByteBuffer) := do
  match validation.len with
  | none =>
    let (n, b1) ← b.readVarint32
    if b1.bytes.length < n then throw (Err.rangeError "Illegal range")
    pure (JsVal.buf (b1.bytes.take n), b1.withBytes (b1.bytes.drop n))
  | some len =>
    if b.bytes.length < len then throw (Err.rangeError "Illegal range")
    pure (JsVal.buf (b.bytes.take len), b.withBytes (b.bytes.drop len))

/-- The source's `bytebuf(validation).appendByteBuffer`: no validation; the
length goes in front only when `len` is not set. -/
def bytebuf.appendByteBuffer (validation : Validation) (b : ByteBuffer) (value : JsVal) :
    Except Err ByteBuffer := do
  if isEmpty value then throw (Err.typeError "Cannot read properties of null")
  let b1 ← match validation.len with
    | none =>
      match value.length with
      | some n => pure (b.writeVarint32 n)
      | none => throw (Err.typeError "Illegal value (not an integer)")
    | some _ => pure b
  match binaryBytes value with
  | some bs => pure (b1.append bs)
  | none => throw (Err.other "append")

/-- The source's `bytebuf(validation).fromObject`. -/
def bytebuf.fromObject (validation : Validation) (value : JsVal) : Except Err JsVal := do
  let value := match value with
    | .str s => JsVal.buf (hexDecode s.data)
    | v => v
  validate value validation
  pure value

/-- The source's `bytebuf(validation).toObject`. -/
def bytebuf.toObject (validation : Validation) (value : JsVal) : Except Err JsVal := do
  if validation.defaults ∧ isEmpty value then
    return JsVal.str (String.mk ((List.replicate (validation.len.getD 0) ['0', '0']).flatten))
  validate value validation
  match value with
  | .buf bs => pure (JsVal.str (String.mk (hexEncode bs)))
  | .str s => pure (JsVal.str s)
  | _ => throw (Err.other "toString")

/-- The source's `bytebuf = (validation) => {...}`. -/
def bytebuf (validation : Validation) : Serializer where
  fromByteBuffer := bytebuf.fromByteBuffer validation
  appendByteBuffer := bytebuf.appendByteBuffer validation
  fromObject := bytebuf.fromObject validation
  toObject := bytebuf.toObject validation

/-! ## String serializers (`string`) -/

/-- The source's `string(validation).fromByteBuffer`. -/
def string.fromByteBuffer (_validation : Validation) (b : ByteBuffer) :
    Except Err (JsVal × ByteBuffer) :=
  b.readVString

/-- The source's `string(validation).appendByteBuffer`. -/
def string.appendByteBuffer (validation : Validation) (b : ByteBuffer) (value : JsVal) :
    Except Err ByteBuffer := do
  validate value validation
  match jsString value with
  | some s => pure (b.writeVString s)
  | none => throw (Err.other "toString")

/-- The source's `string(validation).fromObject`. -/
def string.fromObject (validation : Validation) (value : JsVal) : Except Err JsVal := do
  validate value validation
  pure value

/-- The source's `string(validation).toObject`. -/
def string.toObject (validation : Validation) (value : JsVal) : Except Err JsVal := do
  if validation.defaults ∧ isEmpty value then
    return JsVal.str ""
  validate value validation
  pure value

/-- The source's `string = (validation) => ({...})`. -/
def string (validation : Validation) : Serializer where
  fromByteBuffer := string.fromByteBuffer validation
  appendByteBuffer := string.appendByteBuffer validation
  fromObject := string.fromObject validation
  toObject := string.toObject validation

/-! ## Time serializer (`time`) -/

/-- The platform services `types.js` calls that the embedding takes as given:
`dateParse text` is `new Date(text).getTime()` (`none` for `NaN`). -/
structure Platform where
  dateParse : String → Option Int

/-- Decimal numeral of `n` padded with zeros to `width` digits. -/
def padDecimal (width n : Nat) : List Char :=
  List.replicate (width - (decimalNat n).length) '0' ++ decimalNat n

/-- Civil date `(year, month, day)` of a day count since 1970-01-01
(proleptic Gregorian calendar). -/
def civilFromDays (days : Nat) : Nat × Nat × Nat :=
  let z := days + 719468
  let era := z / 146097
  let doe := z % 146097
  let yoe := (doe - doe / 1460 + doe / 36524 - doe / 146096) / 365
  let doy := doe - (365 * yoe + yoe / 4 - yoe / 100)
  let mp := (5 * doy + 2) / 153
  let d := doy - (153 * mp + 2) / 5 + 1
  let m := if mp < 10 then mp + 3 else mp - 9
  let y := yoe + era * 400 + (if m ≤ 2 then 1 else 0)
  (y, m, d)

/-- JavaScript `new Date(secs * 1000).toISOString().split('.')[0]` for a
non-negative number of seconds: `YYYY-MM-DDTHH:mm:ss`. -/
def isoSeconds (secs : Nat) : String :=
  let (y, m, d) := civilFromDays (secs / 86400)
  let r := secs % 86400
  String.mk (padDecimal 4 y ++ '-' :: padDecimal 2 m ++ '-' :: padDecimal 2 d ++
    'T' :: padDecimal 2 (r / 3600) ++ ':' :: padDecimal 2 (r % 3600 / 60) ++
    ':' :: padDecimal 2 (r % 60))

/-- JavaScript `parseInt(value)` on the text of a value that passed
`noOverflow` (an optional `-` and decimal digits): the integer, or `none`
(`NaN`) when there is no digit. -/
def parseInt (value : JsVal) : Option Int :=
  match jsString value with
  | some s =>
    match s.data with
    | [] => none
    | ['-'] => none
    | _ => BN.ofString s
  | none => none

/-- The source's `spread(validation, {bits: 32})`, that is
`Object.assign(validation, {bits: 32})`: the descriptor with `bits` set. -/
def spreadBits (validation : Validation) (bits : Nat) : Validation :=
  { validation with bits := some bits }

/-- The source's `time(validation).fromByteBuffer`. -/
def time.fromByteBuffer (_validation : Validation) (b : ByteBuffer) :
    Except Err (JsVal × ByteBuffer) :=
  b.readInt (false, some 32)

/-- The source's `time(validation).appendByteBuffer`. -/
def time.appendByteBuffer (validation : Validation) (b : ByteBuffer) (value : JsVal) :
    Except Err ByteBuffer := do
  validate value validation
  b.writeInt (false, some 32) value

/-- The source's `time(validation).fromObject`. -/
def time.fromObject (p : Platform) (validation : Validation) (value : JsVal) :
    Except Err JsVal := do
  validate value validation
  match value with
  | .num n => pure (JsVal.num n)
  | .nan => pure JsVal.nan
  | .date ms => pure (JsVal.num (Int.fdiv ms 1000))
  | .str s =>
    let text := if s.data.getLast? = some 'Z' then s else s ++ "Z"
    match p.dateParse text with
    | some ms => pure (JsVal.num (Int.fdiv ms 1000))
    | none => pure JsVal.nan
  | v => throw (Err.unknownDateType v)

/-- The source's `time(validation).toObject`. -/
def time.toObject (validation : Validation) (value : JsVal) : Except Err JsVal := do
  if validation.defaults ∧ isEmpty value then
    return JsVal.str (isoSeconds 0)
  validate value validation
  noOverflow value (spreadBits validation 32)
  match parseInt value with
  | some (Int.ofNat n) => pure (JsVal.str (isoSeconds n))
  | _ => throw (Err.rangeError "Invalid time value")

/-- The source's `time = (validation) => {...}`. -/
def time (p : Platform) (validation : Validation) : Serializer where
  fromByteBuffer := time.fromByteBuffer validation
  appendByteBuffer := time.appendByteBuffer validation
  fromObject := time.fromObject p validation
  toObject := time.toObject validation

/-! ## Composite serializers (`vector`, `optional`) -/

/-- The source's `isSerializer(type)`: an object whose four operations are
functions. Reading a property of `null` raises a `TypeError`. -/
def isSerializer : Option TypeArg → Except Err Bool
  | some (.value .null) => throw (Err.typeError "Cannot read properties of null")
  | some (.object (some _) (some _) (some _) (some _)) => pure true
  | _ => pure false

/-- The methods of `validation.type` as they behave when called: calling a
missing method raises a `TypeError`. -/
def innerType : Option TypeArg → Serializer
  | some (.object fb ab fo tobj) =>
    { fromByteBuffer := fb.getD (fun _ => throw (Err.typeError "type.fromByteBuffer is not a function"))
      appendByteBuffer := ab.getD (fun _ _ => throw (Err.typeError "type.appendByteBuffer is not a function"))
      fromObject := fo.getD (fun _ => throw (Err.typeError "type.fromObject is not a function"))
      toObject := tobj.getD (fun _ => throw (Err.typeError "type.toObject is not a function")) }
  | _ =>
    { fromByteBuffer := fun _ => throw (Err.typeError "type.fromByteBuffer is not a function")
      appendByteBuffer := fun _ _ => throw (Err.typeError "type.appendByteBuffer is not a function")
      fromObject := fun _ => throw (Err.typeError "type.fromObject is not a function")
      toObject := fun _ => throw (Err.typeError "type.toObject is not a function") }

/-- The elements `for (const o of value)` visits: those of an array, the
characters of a string, the bytes of a buffer; `none` when the value is not
iterable. -/
def iterate : JsVal → Option (List JsVal)
  | .arr xs => some xs
  | .str s => some (s.data.map (fun c => JsVal.str (String.mk [c])))
  | .buf bs => some (bs.map (fun x => JsVal.num x.val))
  | _ => none

/-- The loop `for (let i = 0; i < size; i++) result.push(f(b))`. -/
def readEach (f : ByteBuffer → Except Err (JsVal × ByteBuffer)) :
    Nat → ByteBuffer → Except Err (List JsVal × ByteBuffer)
  | 0, b => pure ([], b)
  | size + 1, b => do
    let (x, b1) ← f b
    let (xs, b2) ← readEach f size b1
    pure (x :: xs, b2)

/-- The loop `for (const o of value) f(b, o)`. -/
def appendEach (f : ByteBuffer → JsVal → Except Err ByteBuffer) :
    ByteBuffer → List JsVal → Except Err ByteBuffer
  | b, [] => pure b
  | b, o :: os => do
    let b1 ← f b o
    appendEach f b1 os

/-- The loop `for (const o of value) result.push(f(o))`. -/
def mapEach (f : JsVal → Except Err JsVal) : List JsVal → Except Err (List JsVal)
  | [] => pure []
  | o :: os => do
    let x ← f o
    let xs ← mapEach f os
    pure (x :: xs)

/-- The source's `vector(validation).fromByteBuffer`. -/
def vector.fromByteBuffer (validation : Validation) (b : ByteBuffer) :
    Except Err (JsVal × ByteBuffer) := do
  let (size, b1) ← b.readVarint32
  let (result, b2) ← readEach (innerType validation.type).fromByteBuffer size b1
  pure (JsVal.arr result, b2)

/-- The source's `vector(validation).appendByteBuffer`. -/
def vector.appendByteBuffer (validation : Validation) (b : ByteBuffer) (value : JsVal) :
    Except Err ByteBuffer := do
  validate value validation
  let b1 ← match value.length with
    | some n => pure (b.writeVarint32 n)
    | none => throw (Err.typeError "Illegal value (not an integer)")
  match iterate value with
  | some os => appendEach (innerType validation.type).appendByteBuffer b1 os
  | none => throw (Err.typeError "value is not iterable")

/-- The source's `vector(validation).fromObject`. -/
def vector.fromObject (validation : Validation) (value : JsVal) : Except Err JsVal := do
  validate value validation
  match iterate value with
  | some os =>
    let result ← mapEach (innerType validation.type).fromObject os
    pure (JsVal.arr result)
  | none => throw (Err.typeError "value is not iterable")

/-- The source's `vector(validation).toObject`. -/
def vector.toObject (validation : Validation) (value : JsVal) : Except Err JsVal := do
  if validation.defaults ∧ isEmpty value then
    let x ← (innerType validation.type).toObject value
    return JsVal.arr [x]
  validate value validation
  match iterate value with
  | some os =>
    let result ← mapEach (innerType validation.type).toObject os
    pure (JsVal.arr result)
  | none => throw (Err.typeError "value is not iterable")

/-- The source's `vector = validation => {...}`: construction fails unless
`validation.type` is a serializer. -/
def vector (validation : Validation) : Except Err Serializer := do
  if !(← isSerializer validation.type) then
    throw (Err.typeError "Vector type should be a serializer")
  pure
    { fromByteBuffer := vector.fromByteBuffer validation
      appendByteBuffer := vector.appendByteBuffer validation
      fromObject := vector.fromObject validation
      toObject := vector.toObject validation }

/-- The source's `optional(validation).fromByteBuffer`. -/
def optional.fromByteBuffer (validation : Validation) (b : ByteBuffer) :
    Except Err (JsVal × ByteBuffer) := do
  let (flag, b1) ← b.readUint8
  if !(flag = 1) then
    return (JsVal.null, b1)
  (innerType validation.type).fromByteBuffer b1

/-- The source's `optional(validation).appendByteBuffer`. -/
def optional.appendByteBuffer (validation : Validation) (b : ByteBuffer) (value : JsVal) :
    Except Err ByteBuffer :=
  if !(isEmpty value) then
    (innerType validation.type).appendByteBuffer (b.writeUint8 1) value
  else
    pure (b.writeUint8 0)

/-- The source's `optional(validation).fromObject`. -/
def optional.fromObject (validation : Validation) (value : JsVal) : Except Err JsVal :=
  if isEmpty value then
    pure JsVal.null
  else
    (innerType validation.type).fromObject value

/-- The source's `optional(validation).toObject`. -/
def optional.toObject (validation : Validation) (value : JsVal) : Except Err JsVal :=
  if isEmpty value ∧ !validation.defaults then
    pure JsVal.null
  else
    (innerType validation.type).toObject value

/-- The source's `optional = validation => {...}`: construction fails unless
`validation.type` is a serializer. -/
def optional (validation : Validation) : Except Err Serializer := do
  if !(← isSerializer validation.type) then
    throw (Err.typeError "Optional parameter should be a serializer")
  pure
    { fromByteBuffer := optional.fromByteBuffer validation
      appendByteBuffer := optional.appendByteBuffer validation
      fromObject := optional.fromObject validation
      toObject := optional.toObject validation }

/-! ## Type table and factory -/

/-- The implementation functions the `types` table refers to. -/
inductive Impl where
  | bytebuf | string | vector | optional | time | intbuf

/-- The partial descriptor a `types` entry returns next to the
implementation (`{}` when the entry gives none). -/
structure Partial where
  len : Option Nat := none
  maxLen : Option Nat := none
  signed : Option Bool := none
  bits : Option Nat := none
  type : Option TypeArg := none

/-- The source's `types` table: the entry of `typeName` applied to `args`
(`none`: the table has no such name). -/
def types (typeName : String) (args : List TypeArg) : Option (Impl × Partial) :=
  if typeName = "Bytes" then some (.bytebuf, {})
  else if typeName = "String" then some (.string, {})
  else if typeName = "Vector" then some (.vector, { type := args.head? })
  else if typeName = "Optional" then some (.optional, { type := args.head? })
  else if typeName = "Time" then some (.time, {})
  else if typeName = "FixedString16" then some (.string, { maxLen := some 16 })
  else if typeName = "FixedString32" then some (.string, { maxLen := some 32 })
  else if typeName = "FixedBytes16" then some (.bytebuf, { len := some 16 })
  else if typeName = "FixedBytes28" then some (.bytebuf, { len := some 28 })
  else if typeName = "FixedBytes32" then some (.bytebuf, { len := some 32 })
  else if typeName = "FixedBytes33" then some (.bytebuf, { len := some 33 })
  else if typeName = "FixedBytes64" then some (.bytebuf, { len := some 64 })
  else if typeName = "FixedBytes65" then some (.bytebuf, { len := some 65 })
  else if typeName = "UInt8" then some (.intbuf, { bits := some 8 })
  else if typeName = "UInt16" then some (.intbuf, { bits := some 16 })
  else if typeName = "UInt32" then some (.intbuf, { bits := some 32 })
  else if typeName = "UInt64" then some (.intbuf, { bits := some 64 })
  else if typeName = "Int8" then some (.intbuf, { signed := some true, bits := some 8 })
  else if typeName = "Int16" then some (.intbuf, { signed := some true, bits := some 16 })
  else if typeName = "Int32" then some (.intbuf, { signed := some true, bits := some 32 })
  else if typeName = "Int64" then some (.intbuf, { signed := some true, bits := some 64 })
  else none

/-- The source's `baseTypes`, as a custom implementation function sees it:
the constructor registered under a name, applied to arguments. -/
abbrev BaseTypes := String → List TypeArg → Except Err Serializer

/-- An entry of `customTypes`: applied to the constructor's arguments it
answers `[fn, v]`, an implementation function `fn(validation, baseTypes)`
and a partial descriptor. -/
structure CustomType where
  build : List TypeArg →
    Except Err ((Validation → BaseTypes → Except Err Serializer) × Partial)

/-- The recognized options of the factory's configuration; `none` is an
omitted option, and an omitted `customTypes` is the empty table (its keys
are distinct, as those of an object are). `customTypes` is copied into the
descriptor as well, but no base implementation reads it. -/
structure Config where
  defaults : Option Bool := none
  debug : Option Bool := none
  customTypes : List (String × CustomType) := []

/-- The source's `Object.assign(v, config)` followed by
`validation.typeName = typeName`, where `config` has been completed with
`{defaults: false, debug: false}`. -/
def descriptor (typeName : String) (config : Config) (v : Partial) : Validation :=
  { typeName := typeName
    defaults := config.defaults.getD false
    debug := config.debug.getD false
    len := v.len
    maxLen := v.maxLen
    signed := v.signed
    bits := v.bits
    type := v.type }

/-- The call `fn(validation, baseTypes)` of the implementation function. -/
def Impl.build (p : Platform) : Impl → Validation → Except Err Serializer
  | .bytebuf, validation => pure (FCBuffer.bytebuf validation)
  | .string, validation => pure (FCBuffer.string validation)
  | .vector, validation => FCBuffer.vector validation
  | .optional, validation => FCBuffer.optional validation
  | .time, validation => pure (FCBuffer.time p validation)
  | .intbuf, validation => pure (FCBuffer.intbuf validation)

/-- The source's `createType(typeName, config, args)` for a base type: the
constructor the factory registers under `typeName`, applied to `args`. -/
def createType (p : Platform) (typeName : String) (config : Config) (args : List TypeArg) :
    Except Err Serializer :=
  match types typeName args with
  | some (fn, v) => fn.build p (descriptor typeName config v)
  | none => throw (Err.typeError "Type is not a function")

/-- The integer entries of the `types` table: name, `signed`, `bits`. -/
def integerTypes : List (String × Bool × Nat) :=
  [("UInt8", false, 8), ("UInt16", false, 16), ("UInt32", false, 32), ("UInt64", false, 64),
   ("Int8", true, 8), ("Int16", true, 16), ("Int32", true, 32), ("Int64", true, 64)]

/-- The fixed-length byte entries of the `types` table: name, `len`. -/
def fixedBytesTypes : List (String × Nat) :=
  [("FixedBytes16", 16), ("FixedBytes28", 28), ("FixedBytes32", 32), ("FixedBytes33", 33),
   ("FixedBytes64", 64), ("FixedBytes65", 65)]

/-- The bounded string entries of the `types` table: name, `maxLen`. -/
def fixedStringTypes : List (String × Nat) :=
  [("FixedString16", 16), ("FixedString32", 32)]

/-- The byte entries of the `types` table: name, `len` (`none` for the
variable-length `Bytes`). -/
def bytesTypes : List (String × Option Nat) :=
  [("Bytes", none), ("FixedBytes16", some 16), ("FixedBytes28", some 28),
   ("FixedBytes32", some 32), ("FixedBytes33", some 33), ("FixedBytes64", some 64),
   ("FixedBytes65", some 65)]

/-- The varint of `n`. -/
def varint (n : Nat) : List Byte := varintBytes (n + 1) n

/-- The names of the scalar entries of the `types` table (Integer, Bytes,
String and Time serializers). -/
def scalarTypeNames : List String :=
  ["Bytes", "String", "Time", "FixedString16", "FixedString32",
   "FixedBytes16", "FixedBytes28", "FixedBytes32", "FixedBytes33", "FixedBytes64", "FixedBytes65",
   "UInt8", "UInt16", "UInt32", "UInt64", "Int8", "Int16", "Int32", "Int64"]

/-- JavaScript `value.getTime` being present: the value is Date-like. -/
def JsVal.hasGetTime : JsVal → Bool
  | .date _ => true
  | _ => false

/-- The source's `baseTypes = Object.keys(types).reduce(createTypeReducer(), {})`:
under each name of the `types` table, the constructor `createType` builds
from the table. -/
def baseTypes (p : Platform) (config : Config) : BaseTypes :=
  fun typeName args => createType p typeName config args

/-- The `[fn, v]` that `createType` obtains for the entry `name` of the
registry the factory returns, `Object.assign({}, baseTypes, customTypes,
{config})`: a custom type comes before a base type of the same name, and
`config` is not a constructor. -/
def registryType (p : Platform) (config : Config) (name : String) (args : List TypeArg) :
    Except Err ((Validation → BaseTypes → Except Err Serializer) × Partial) :=
  if name = "config" then throw (Err.typeError "config is not a function")
  else
    match config.customTypes.lookup name with
    | some custom => custom.build args
    | none =>
      match types name args with
      | some (fn, v) => pure (fun validation _ => fn.build p validation, v)
      | none => throw (Err.typeError "Type is not a function")

/-- The validation descriptor `createType` builds for the entry `name` of the
registry: `Object.assign(v, config)` and `validation.typeName = typeName`. -/
def registryDescriptor (p : Platform) (config : Config) (name : String)
    (args : List TypeArg) : Except Err Validation := do
  let (_, v) ← registryType p config name args
  pure (descriptor name config v)

/-- The source's `module.exports(config)[name](...args)`: the constructor the
factory registers under `name`, applied to `args`. -/
def registry (p : Platform) (config : Config) (name : String) (args : List TypeArg) :
    Except Err Serializer := do
  let (fn, v) ← registryType p config name args
  fn (descriptor name config v) (baseTypes p config)

/-- The source's `time(validation).toObject` together with the descriptor
the call leaves behind: `spread(validation, {bits: 32})` is
`Object.assign(validation, {bits: 32})`, which writes `bits` into
`validation` itself. -/
def time.toObjectState (validation : Validation) (value : JsVal) :
    Validation × Except Err JsVal :=
  if validation.defaults ∧ isEmpty value then
    (validation, .ok (JsVal.str (isoSeconds 0)))
  else
    match validate value validation with
    | .error e => (validation, .error e)
    | .ok _ =>
      let validation1 := spreadBits validation 32
      (validation1, do
        noOverflow value validation1
        match parseInt value with
        | some (Int.ofNat n) => pure (JsVal.str (isoSeconds n))
        | _ => throw (Err.rangeError "Invalid time value"))

/-- The outcome is a thrown overflow error. -/
def raisesOverflow : Except Err JsVal → Bool
  | .error (.overflow _ _ _ _ _ _) => true
  | _ => false

/-! ## Auxiliary lemmas -/

theorem digitChar_toNat (d : Nat) (h : d < 10) : (digitChar d).toNat = 48 + d := by
  interval_cases d <;> rfl

theorem digitChar_ne_minus (d : Nat) (h : d < 10) : digitChar d ≠ '-' := by
  interval_cases d <;> decide

theorem parseStep_digit (r d : Nat) (h : d < 10) :
    parseStep (some r) (digitChar d) = some (r * 10 + d) := by
  simp [parseStep, digitChar_toNat d h]
  omega

theorem foldl_parseStep_digits (ds : List Nat) (h : ∀ d ∈ ds, d < 10) (r : Nat) :
    (ds.map digitChar).foldl parseStep (some r) = some (ds.foldl (fun a d => a * 10 + d) r) := by
  induction ds generalizing r with
  | nil => rfl
  | cons d ds ih =>
    simp only [List.map_cons, List.foldl_cons]
    rw [parseStep_digit r d (h d (List.mem_cons_self _ _))]
    exact ih (fun x hx => h x (List.mem_cons_of_mem _ hx)) _

theorem digitsLE_lt (fuel n : Nat) : ∀ d ∈ digitsLE fuel n, d < 10 := by
  induction fuel generalizing n with
  | zero => simp [digitsLE]
  | succ f ih =>
    intro d hd
    unfold digitsLE at hd
    split at hd
    · simp at hd; omega
    · rcases List.mem_cons.1 hd with h | h
      · omega
      · exact ih _ d h

theorem digitsLE_value (fuel n : Nat) (h : n < fuel) :
    (digitsLE fuel n).foldr (fun d a => a * 10 + d) 0 = n := by
  induction fuel generalizing n with
  | zero => omega
  | succ f ih =>
    unfold digitsLE
    split
    · simp
    · simp only [List.foldr_cons]
      rw [ih (n / 10) (by omega)]
      omega

theorem parseDigits_decimalNat (n : Nat) : parseDigits (decimalNat n) = some n := by
  unfold parseDigits decimalNat
  rw [foldl_parseStep_digits _ (fun d hd => digitsLE_lt _ _ d (List.mem_reverse.1 hd)),
    List.foldl_reverse, digitsLE_value _ _ (Nat.lt_succ_self n)]

theorem decimalNat_ne_minus (n : Nat) : ∀ c ∈ decimalNat n, c ≠ '-' := by
  intro c hc
  unfold decimalNat at hc
  rcases List.mem_map.1 hc with ⟨d, hd, rfl⟩
  exact digitChar_ne_minus d (digitsLE_lt _ _ d (List.mem_reverse.1 hd))

/-- Reading back the decimal numeral of an integer gives the integer. -/
theorem BN_ofString_decimalString (v : Int) : BN.ofString (decimalString v) = some v := by
  cases v with
  | ofNat n =>
    have hp := parseDigits_decimalNat n
    have hm := decimalNat_ne_minus n
    unfold BN.ofString decimalString
    simp only
    cases hds : decimalNat n with
    | nil =>
      rw [hds] at hp
      simp [parseDigits] at hp
      simp [← hp]
    | cons c cs =>
      rw [hds] at hp hm
      simp [hm c (List.mem_cons_self _ _), hp]
  | negSucc n =>
    unfold BN.ofString decimalString
    simp [parseDigits_decimalNat, Int.negSucc_eq]

/-- A number of magnitude below `2^53` prints as its own decimal numeral. -/
theorem numberString_small (v : Int) (h : v.natAbs < 2 ^ 53) :
    numberString v = decimalString v := by
  cases v with
  | ofNat n =>
    have hn : n < 2 ^ 53 := h
    simp only [numberString, decimalString, numberText, hn, ↓reduceIte]
  | negSucc n =>
    have hn : n + 1 < 2 ^ 53 := h
    simp only [numberString, decimalString, numberText, hn, ↓reduceIte]

theorem jsString_num_parse (v : Int) (h : numberString v = decimalString v) :
    (jsString (JsVal.num v)).bind BN.ofString = some v := by
  simp [jsString, h, BN_ofString_decimalString]

theorem jsString_str_parse (v : Int) :
    (jsString (JsVal.str (decimalString v))).bind BN.ofString = some v := by
  simp [jsString, BN_ofString_decimalString]

theorem jsString_long_parse (v : Int) : (jsString (JsVal.long v)).bind BN.ofString = some v := by
  simp [jsString, BN_ofString_decimalString]

/-- `noOverflow` on a present value whose text reads as the integer `i`. -/
theorem noOverflow_of_int (value : JsVal) (validation : Validation) (i : Int)
    (hne : isEmpty value = false) (hi : (jsString value).bind BN.ofString = some i) :
    noOverflow value validation =
      if i < (if validation.signed.getD false then minSigned (validation.bits.getD 54) else 0) ∨
         i > (if validation.signed.getD false then maxSigned (validation.bits.getD 54)
              else maxUnsigned (validation.bits.getD 54))
      then .error (Err.overflow validation.typeName value
        (if validation.signed.getD false then maxSigned (validation.bits.getD 54)
              else maxUnsigned (validation.bits.getD 54))
        (if validation.signed.getD false then minSigned (validation.bits.getD 54) else 0)
        (validation.signed.getD false) (validation.bits.getD 54))
      else .ok () := by
  unfold noOverflow
  simp only [hne, hi, Bool.false_eq_true, ↓reduceIte]
  split <;> rfl

theorem createType_integer (p : Platform) (config : Config) (name : String) (signed : Bool)
    (bits : Nat) (ht : (name, signed, bits) ∈ integerTypes) :
    createType p name config [] =
      .ok (intbuf { typeName := name, defaults := config.defaults.getD false,
                    debug := config.debug.getD false,
                    signed := if signed then some true else none, bits := some bits }) := by
  simp only [integerTypes, List.mem_cons, Prod.mk.injEq, List.mem_singleton, List.not_mem_nil, or_false] at ht
  rcases ht with ⟨rfl, rfl, rfl⟩ | ⟨rfl, rfl, rfl⟩ | ⟨rfl, rfl, rfl⟩ | ⟨rfl, rfl, rfl⟩ |
    ⟨rfl, rfl, rfl⟩ | ⟨rfl, rfl, rfl⟩ | ⟨rfl, rfl, rfl⟩ | ⟨rfl, rfl, rfl⟩ <;> rfl
theorem intbuf_fromObject_of_int (validation : Validation) (value : JsVal) (i : Int)
    (hne : isEmpty value = false) (hi : (jsString value).bind BN.ofString = some i) :
    intbuf.fromObject validation value =
      if i < (if validation.signed.getD false then minSigned (validation.bits.getD 54) else 0) ∨
         i > (if validation.signed.getD false then maxSigned (validation.bits.getD 54)
              else maxUnsigned (validation.bits.getD 54))
      then .error (Err.overflow validation.typeName value
        (if validation.signed.getD false then maxSigned (validation.bits.getD 54)
              else maxUnsigned (validation.bits.getD 54))
        (if validation.signed.getD false then minSigned (validation.bits.getD 54) else 0)
        (validation.signed.getD false) (validation.bits.getD 54))
      else .ok value := by
  unfold intbuf.fromObject
  rw [noOverflow_of_int value validation i hne hi]
  split_ifs <;> rfl

/-- C1 (as stated) fails: the number `-2^63` lies in the range of Int64, whose
minimum it is, yet `fromObject` raises the overflow error: the text of that
number is `-9223372036854776000`, and it is the text that is compared. -/
theorem C1_integer_fromObject_counterexample :
    ∃ S, createType ⟨fun _ => none⟩ "Int64" {} [] = .ok S ∧
      (-(2 : Int) ^ (64 - 1) ≤ -9223372036854775808 ∧
        (-9223372036854775808 : Int) ≤ (2 : Int) ^ (64 - 1) - 1) ∧
      jsString (JsVal.num (-9223372036854775808)) = some "-9223372036854776000" ∧
      S.fromObject (JsVal.num (-9223372036854775808)) =
        .error (Err.overflow "Int64" (JsVal.num (-9223372036854775808))
          9223372036854775807 (-9223372036854775808) true 64) :=
  ⟨_, rfl, by decide, by decide, rfl⟩

/-- C1 (amended): for every Integer serializer of the type table (signed flag
`signed`, `bits` in 8, 16, 32, 64) and every integer `v`, given as its
decimal string or as a number whose text form is its own decimal numeral
(every number of magnitude below `2^53` is one), `fromObject` returns the
value unchanged exactly when `min ≤ v ≤ max` and raises the overflow error
otherwise, where `min = 0`, `max = 2^bits - 1` when unsigned and
`min = -2^(bits-1)`, `max = 2^(bits-1) - 1` when signed. In particular UInt8
accepts 0 and 255 and rejects -1 and 256; Int8 accepts -128 and 127 and
rejects -129 and 128. -/
theorem C1_integer_fromObject_range (p : Platform) (config : Config) :
    (∀ (name : String) (signed : Bool) (bits : Nat), (name, signed, bits) ∈ integerTypes →
      ∀ (v : Int) (value : JsVal),
      (value = JsVal.num v ∧ numberString v = decimalString v) ∨
        value = JsVal.str (decimalString v) →
      ∃ S, createType p name config [] = .ok S ∧
        S.fromObject value =
          if (if signed then -(2 : Int) ^ (bits - 1) else 0) ≤ v ∧
             v ≤ (if signed then (2 : Int) ^ (bits - 1) - 1 else (2 : Int) ^ bits - 1)
          then .ok value
          else .error (Err.overflow name value
            (if signed then (2 : Int) ^ (bits - 1) - 1 else (2 : Int) ^ bits - 1)
            (if signed then -(2 : Int) ^ (bits - 1) else 0) signed bits)) ∧
    (∀ v : Int, v.natAbs < 2 ^ 53 → numberString v = decimalString v) ∧
    (∃ S, createType p "UInt8" config [] = .ok S ∧
      S.fromObject (JsVal.num 0) = .ok (JsVal.num 0) ∧
      S.fromObject (JsVal.num 255) = .ok (JsVal.num 255) ∧
      S.fromObject (JsVal.num (-1)) = .error (Err.overflow "UInt8" (JsVal.num (-1)) 255 0 false 8) ∧
      S.fromObject (JsVal.num 256) = .error (Err.overflow "UInt8" (JsVal.num 256) 255 0 false 8)) ∧
    (∃ S, createType p "Int8" config [] = .ok S ∧
      S.fromObject (JsVal.num (-128)) = .ok (JsVal.num (-128)) ∧
      S.fromObject (JsVal.num 127) = .ok (JsVal.num 127) ∧
      S.fromObject (JsVal.num (-129)) =
        .error (Err.overflow "Int8" (JsVal.num (-129)) 127 (-128) true 8) ∧
      S.fromObject (JsVal.num 128) = .error (Err.overflow "Int8" (JsVal.num 128) 127 (-128) true 8)) := by
  refine ⟨?_, numberString_small, ⟨_, rfl, rfl, rfl, rfl, rfl⟩, ⟨_, rfl, rfl, rfl, rfl, rfl⟩⟩
  intro name signed bits ht v value hv
  refine ⟨_, createType_integer p config name signed bits ht, ?_⟩
  have hne : isEmpty value = false := by rcases hv with ⟨rfl, _⟩ | rfl <;> rfl
  have hi : (jsString value).bind BN.ofString = some v := by
    rcases hv with ⟨rfl, hx⟩ | rfl
    · exact jsString_num_parse v hx
    · exact jsString_str_parse v
  show intbuf.fromObject _ value = _
  rw [intbuf_fromObject_of_int _ value v hne hi]
  cases signed <;>
    simp only [Option.getD_some, Option.getD_none, Bool.false_eq_true, ↓reduceIte,
      maxUnsigned, maxSigned, minSigned, one_mul]
  · by_cases h : 0 ≤ v ∧ v ≤ (2 : Int) ^ bits - 1
    · rw [if_neg (by omega), if_pos h]
    · rw [if_pos (by omega), if_neg h]
  · by_cases h : -(2 : Int) ^ (bits - 1) ≤ v ∧ v ≤ (2 : Int) ^ (bits - 1) - 1
    · rw [if_neg (by omega), if_pos h]
    · rw [if_pos (by omega), if_neg h]

/-- C1 (amended) at concrete inputs: UInt64 accepts the decimal string of
`2^64 - 1`, and UInt32 rejects the number `2^32`. -/
theorem C1_integer_fromObject_range_witness :
    (∃ S, createType ⟨fun _ => none⟩ "UInt64" {} [] = .ok S ∧
      S.fromObject (JsVal.str (decimalString 18446744073709551615)) =
        .ok (JsVal.str (decimalString 18446744073709551615))) ∧
    (∃ S, createType ⟨fun _ => none⟩ "UInt32" {} [] = .ok S ∧
      S.fromObject (JsVal.num 4294967296) =
        .error (Err.overflow "UInt32" (JsVal.num 4294967296) ((2 : Int) ^ 32 - 1) 0 false 32)) := by
  obtain ⟨S, hS, h⟩ := (C1_integer_fromObject_range ⟨fun _ => none⟩ {}).1 "UInt64" false 64
    (by decide) 18446744073709551615 _ (Or.inr rfl)
  obtain ⟨S2, hS2, h2⟩ := (C1_integer_fromObject_range ⟨fun _ => none⟩ {}).1 "UInt32" false 32
    (by decide) 4294967296 _ (Or.inl ⟨rfl, by decide⟩)
  exact ⟨⟨S, hS, h.trans (if_pos (by norm_num))⟩, ⟨S2, hS2, h2.trans (if_neg (by norm_num))⟩⟩

theorem createType_bytes (p : Platform) (config : Config) (name : String) (len : Option Nat)
    (ht : (name, len) ∈ bytesTypes) :
    createType p name config [] =
      .ok (bytebuf { typeName := name, defaults := config.defaults.getD false,
                     debug := config.debug.getD false, len := len }) := by
  simp only [bytesTypes, List.mem_cons, Prod.mk.injEq, List.mem_singleton, List.not_mem_nil,
    or_false] at ht
  rcases ht with ⟨rfl, rfl⟩ | ⟨rfl, rfl⟩ | ⟨rfl, rfl⟩ | ⟨rfl, rfl⟩ | ⟨rfl, rfl⟩ | ⟨rfl, rfl⟩ |
    ⟨rfl, rfl⟩ <;> rfl

theorem fixedBytes_mem_bytesTypes (name : String) (len : Nat)
    (ht : (name, len) ∈ fixedBytesTypes) : (name, some len) ∈ bytesTypes := by
  simp only [fixedBytesTypes, List.mem_cons, Prod.mk.injEq, List.mem_singleton, List.not_mem_nil,
    or_false] at ht
  rcases ht with ⟨rfl, rfl⟩ | ⟨rfl, rfl⟩ | ⟨rfl, rfl⟩ | ⟨rfl, rfl⟩ | ⟨rfl, rfl⟩ | ⟨rfl, rfl⟩ <;>
    decide

/-- `validate` on a present value with a length, under an exact length `len`
and no `maxLen`. -/
theorem validate_len (value : JsVal) (validation : Validation) (len l : Nat)
    (hne : isEmpty value = false) (hl : value.length = some l)
    (hlen : validation.len = some len) (hmax : validation.maxLen = none) :
    validate value validation =
      if l = len then .ok () else .error (Err.lengthNotEqual validation.typeName l len) := by
  unfold validate
  simp only [hne, hl, hlen, hmax, Bool.false_eq_true, ↓reduceIte]
  split_ifs <;> first | rfl | contradiction

/-- `validate` on a present value when neither `len` nor `maxLen` is set. -/
theorem validate_plain (value : JsVal) (validation : Validation)
    (hne : isEmpty value = false)
    (hlen : validation.len = none) (hmax : validation.maxLen = none) :
    validate value validation = .ok () := by
  unfold validate
  simp only [hne, hlen, hmax, Bool.false_eq_true, ↓reduceIte]
  rfl

/-- `validate` on an absent value. -/
theorem validate_empty (value : JsVal) (validation : Validation) (he : isEmpty value = true) :
    validate value validation = .error (Err.required validation.typeName) := by
  unfold validate
  simp only [he, ↓reduceIte]
  rfl

/-- C2: for every fixed-length Bytes serializer of the type table (declared
length `len`), `fromObject` of a byte sequence, `fromObject` of a string (read
as hexadecimal; the length is that of the decoded bytes) and `toObject` of a
byte sequence succeed exactly when the byte length equals `len`, and
otherwise raise the length-mismatch error carrying the type name, the actual
length and `len`. -/
theorem C2_fixed_bytes_length (p : Platform) (config : Config) (name : String) (len : Nat)
    (ht : (name, len) ∈ fixedBytesTypes) :
    ∃ S, createType p name config [] = .ok S ∧
      (∀ bs : List Byte, S.fromObject (JsVal.buf bs) =
        if bs.length = len then .ok (JsVal.buf bs)
        else .error (Err.lengthNotEqual name bs.length len)) ∧
      (∀ s : String, S.fromObject (JsVal.str s) =
        if (hexDecode s.data).length = len then .ok (JsVal.buf (hexDecode s.data))
        else .error (Err.lengthNotEqual name (hexDecode s.data).length len)) ∧
      (∀ bs : List Byte, S.toObject (JsVal.buf bs) =
        if bs.length = len then .ok (JsVal.str (String.mk (hexEncode bs)))
        else .error (Err.lengthNotEqual name bs.length len)) := by
  refine ⟨_, createType_bytes p config name (some len) (fixedBytes_mem_bytesTypes name len ht),
    ?_, ?_, ?_⟩
  · intro bs
    show bytebuf.fromObject _ (JsVal.buf bs) = _
    unfold bytebuf.fromObject
    simp only
    rw [validate_len (JsVal.buf bs) _ len bs.length rfl rfl rfl rfl]
    split_ifs <;> rfl
  · intro s
    show bytebuf.fromObject _ (JsVal.str s) = _
    unfold bytebuf.fromObject
    simp only
    rw [validate_len (JsVal.buf (hexDecode s.data)) _ len (hexDecode s.data).length rfl rfl rfl rfl]
    split_ifs <;> rfl
  · intro bs
    show bytebuf.toObject _ (JsVal.buf bs) = _
    unfold bytebuf.toObject
    have he : isEmpty (JsVal.buf bs) = false := rfl
    simp only [he, Bool.false_eq_true, and_false, ↓reduceIte]
    rw [validate_len (JsVal.buf bs) _ len bs.length rfl rfl rfl rfl]
    split_ifs <;> rfl

/-- C2 at a concrete input: FixedBytes16 rejects the two bytes decoded from
the four-character text `00ff`. -/
theorem C2_fixed_bytes_length_witness :
    ∃ S, createType ⟨fun _ => none⟩ "FixedBytes16" {} [] = .ok S ∧
      S.fromObject (JsVal.str "00ff") = .error (Err.lengthNotEqual "FixedBytes16" 2 16) := by
  obtain ⟨S, hS, _, h, _⟩ := C2_fixed_bytes_length ⟨fun _ => none⟩ {} "FixedBytes16" 16 (by decide)
  exact ⟨S, hS, (h "00ff").trans rfl⟩

theorem bytesLE_length (k n : Nat) : (bytesLE k n).length = k := by
  induction k generalizing n with
  | zero => rfl
  | succ k ih => simp [bytesLE, ih]

theorem encodeFixed_length (le : Bool) (bits : Nat) (n : Int) :
    (encodeFixed le bits n).length = bits / 8 := by
  unfold encodeFixed
  cases le <;> simp [bytesLE_length]

/-- C3 (as stated) fails: UInt8 is asked to write 256, above its maximum 255;
`appendByteBuffer` raises nothing and appends one byte. -/
theorem C3_integer_append_counterexample :
    ∃ S, createType ⟨fun _ => none⟩ "UInt8" {} [] = .ok S ∧
      (256 : Int) > 2 ^ 8 - 1 ∧
      S.appendByteBuffer ⟨true, []⟩ (JsVal.num 256) = .ok ⟨true, [0]⟩ :=
  ⟨_, rfl, by decide, rfl⟩

/-- C3 (amended): `intbuf.appendByteBuffer` does not range-check. For every
Integer serializer of the type table and every integer number `v`, inside
or outside the declared range, it raises no error and appends exactly
`bits / 8` bytes, handed over by the cursor's fixed-width write; for the
widths 8, 16 and 32 these are the low `bits` bits of `v`. -/
theorem C3_integer_append_no_range_check (p : Platform) (config : Config)
    (name : String) (signed : Bool) (bits : Nat) (ht : (name, signed, bits) ∈ integerTypes) :
    ∃ S, createType p name config [] = .ok S ∧
      ∀ (b : ByteBuffer) (v : Int), ∃ bytes : List Byte,
        S.appendByteBuffer b (JsVal.num v) = .ok (b.append bytes) ∧
        bytes.length = bits / 8 ∧
        (bits ≤ 32 → bytes = encodeFixed b.littleEndian bits v) := by
  refine ⟨_, createType_integer p config name signed bits ht, ?_⟩
  intro b v
  simp only [integerTypes, List.mem_cons, Prod.mk.injEq, List.mem_singleton, List.not_mem_nil,
    or_false] at ht
  rcases ht with ⟨rfl, rfl, rfl⟩ | ⟨rfl, rfl, rfl⟩ | ⟨rfl, rfl, rfl⟩ | ⟨rfl, rfl, rfl⟩ |
    ⟨rfl, rfl, rfl⟩ | ⟨rfl, rfl, rfl⟩ | ⟨rfl, rfl, rfl⟩ | ⟨rfl, rfl, rfl⟩
  all_goals first
    | exact ⟨_, rfl, encodeFixed_length _ _ _, fun _ => rfl⟩
    | exact ⟨_, rfl, encodeFixed_length _ _ _, fun h => absurd h (by decide)⟩

/-- C3 (amended) at a concrete input: Int16 writes the out-of-range 40000 as
two bytes. -/
theorem C3_integer_append_no_range_check_witness :
    ∃ S, createType ⟨fun _ => none⟩ "Int16" {} [] = .ok S ∧
      ∃ bytes : List Byte,
        S.appendByteBuffer ⟨true, []⟩ (JsVal.num 40000) = .ok (ByteBuffer.append ⟨true, []⟩ bytes) ∧
        bytes.length = 2 := by
  obtain ⟨S, hS, h⟩ := C3_integer_append_no_range_check ⟨fun _ => none⟩ {} "Int16" true 16
    (by decide)
  obtain ⟨bytes, h1, h2, _⟩ := h ⟨true, []⟩ 40000
  exact ⟨S, hS, bytes, h1, h2⟩

theorem readVarint_varintBytes (fuel n : Nat) (h : n < fuel) (rest : List Byte) :
    readVarint (varintBytes fuel n ++ rest) = some (n, rest) := by
  induction fuel generalizing n with
  | zero => omega
  | succ f ih =>
    unfold varintBytes
    split
    · rename_i hn
      have hv : (Fin.ofNat n : Fin 256).val = n := by
        show n % 256 = n
        omega
      simp [readVarint, hv, hn]
    · rename_i hn
      have hv : (Fin.ofNat (n % 128 + 128) : Fin 256).val = n % 128 + 128 := by
        show (n % 128 + 128) % 256 = n % 128 + 128
        omega
      have hr := ih (n / 128) (by omega)
      simp [readVarint, hv, hr]
      omega

/-- Reading a varint back: the value, and the cursor past its bytes. -/
theorem readVarint32_varint (b : ByteBuffer) (n : Nat) (rest : List Byte) :
    (b.withBytes (varint n ++ rest)).readVarint32 = .ok (n, b.withBytes rest) := by
  unfold ByteBuffer.readVarint32 ByteBuffer.withBytes varint
  simp only [readVarint_varintBytes (n + 1) n (Nat.lt_succ_self n) rest]
  rfl

/-- C4 (as stated) fails: FixedBytes16 is asked to write a one-byte value;
`appendByteBuffer` does not reject it and appends one byte, not sixteen. -/
theorem C4_bytes_append_counterexample :
    ∃ S, createType ⟨fun _ => none⟩ "FixedBytes16" {} [] = .ok S ∧
      [(7 : Byte)].length ≠ 16 ∧
      S.appendByteBuffer ⟨true, []⟩ (JsVal.buf [7]) = .ok ⟨true, [7]⟩ :=
  ⟨_, rfl, by decide, rfl⟩

/-- C4 (amended): `bytebuf.appendByteBuffer` performs no length validation.
When `len` is fixed it appends the raw bytes of the value with no length
in front (so exactly `len` bytes for a value of length `len`); when `len` is
not set it appends the varint of the value's length followed by the raw
bytes, and `fromByteBuffer` on the appended bytes returns the same byte
sequence and consumes exactly those bytes. -/
theorem C4_bytes_append_wire (p : Platform) (config : Config) :
    (∀ (name : String) (len : Nat), (name, len) ∈ fixedBytesTypes →
      ∃ S, createType p name config [] = .ok S ∧
        ∀ (b : ByteBuffer) (bs : List Byte),
          S.appendByteBuffer b (JsVal.buf bs) = .ok (b.append bs) ∧
          (bs.length = len → ((b.append bs).bytes.drop b.bytes.length).length = len)) ∧
    (∃ S, createType p "Bytes" config [] = .ok S ∧
      ∀ (b : ByteBuffer) (bs rest : List Byte),
        S.appendByteBuffer b (JsVal.buf bs) = .ok (b.append (varint bs.length ++ bs)) ∧
        S.fromByteBuffer (b.withBytes ((varint bs.length ++ bs) ++ rest)) =
          .ok (JsVal.buf bs, b.withBytes rest)) := by
  constructor
  · intro name len ht
    refine ⟨_, createType_bytes p config name (some len) (fixedBytes_mem_bytesTypes name len ht), ?_⟩
    intro b bs
    refine ⟨rfl, ?_⟩
    intro h
    simp [ByteBuffer.append, h]
  · refine ⟨_, createType_bytes p config "Bytes" none (by decide), ?_⟩
    intro b bs rest
    refine ⟨?_, ?_⟩
    · simp [bytebuf, bytebuf.appendByteBuffer, isEmpty, JsVal.length, binaryBytes, ByteBuffer.writeVarint32,
        ByteBuffer.append, varint, pure, Except.pure, bind, Except.bind]
    · simp only [bytebuf, bytebuf.fromByteBuffer, List.append_assoc]
      rw [readVarint32_varint]
      simp [ByteBuffer.withBytes, pure, Except.pure, bind, Except.bind]

/-- C4 (amended) at a concrete input: FixedBytes16 appends a sixteen-byte
value as sixteen raw bytes. -/
theorem C4_bytes_append_wire_witness :
    ∃ S, createType ⟨fun _ => none⟩ "FixedBytes16" {} [] = .ok S ∧
      S.appendByteBuffer ⟨true, [1]⟩ (JsVal.buf (List.replicate 16 0)) =
        .ok (ByteBuffer.append ⟨true, [1]⟩ (List.replicate 16 0)) := by
  obtain ⟨S, hS, h⟩ := (C4_bytes_append_wire ⟨fun _ => none⟩ {}).1 "FixedBytes16" 16 (by decide)
  exact ⟨S, hS, (h ⟨true, [1]⟩ (List.replicate 16 0)).1⟩

theorem createType_vector (p : Platform) (config : Config) (T : Serializer) :
    createType p "Vector" config [TypeArg.ofSerializer T] =
      .ok { fromByteBuffer := vector.fromByteBuffer
              (descriptor "Vector" config { type := some (TypeArg.ofSerializer T) })
            appendByteBuffer := vector.appendByteBuffer
              (descriptor "Vector" config { type := some (TypeArg.ofSerializer T) })
            fromObject := vector.fromObject
              (descriptor "Vector" config { type := some (TypeArg.ofSerializer T) })
            toObject := vector.toObject
              (descriptor "Vector" config { type := some (TypeArg.ofSerializer T) }) } := rfl

theorem createType_optional (p : Platform) (config : Config) (T : Serializer) :
    createType p "Optional" config [TypeArg.ofSerializer T] =
      .ok { fromByteBuffer := optional.fromByteBuffer
              (descriptor "Optional" config { type := some (TypeArg.ofSerializer T) })
            appendByteBuffer := optional.appendByteBuffer
              (descriptor "Optional" config { type := some (TypeArg.ofSerializer T) })
            fromObject := optional.fromObject
              (descriptor "Optional" config { type := some (TypeArg.ofSerializer T) })
            toObject := optional.toObject
              (descriptor "Optional" config { type := some (TypeArg.ofSerializer T) }) } := rfl

/-- The methods of a serializer handed over as inner type are its own. -/
theorem innerType_ofSerializer (T : Serializer) :
    innerType (some (TypeArg.ofSerializer T)) = T := rfl

theorem appendEach_enc (f : ByteBuffer → JsVal → Except Err ByteBuffer) (enc : JsVal → List Byte)
    (xs : List JsVal) (h : ∀ x ∈ xs, ∀ b, f b x = .ok (b.append (enc x))) (b : ByteBuffer) :
    appendEach f b xs = .ok (b.append (xs.map enc).flatten) := by
  induction xs generalizing b with
  | nil => simp [appendEach, ByteBuffer.append, pure, Except.pure]
  | cons x xs ih =>
    simp only [appendEach, bind, Except.bind, h x (List.mem_cons_self _ _) b]
    rw [ih (fun y hy => h y (List.mem_cons_of_mem _ hy))]
    simp [ByteBuffer.append]

theorem readEach_enc (f : ByteBuffer → Except Err (JsVal × ByteBuffer)) (enc : JsVal → List Byte)
    (xs : List JsVal)
    (h : ∀ x ∈ xs, ∀ (b : ByteBuffer) (rest : List Byte),
      f (b.withBytes (enc x ++ rest)) = .ok (x, b.withBytes rest))
    (b : ByteBuffer) (rest : List Byte) :
    readEach f xs.length (b.withBytes ((xs.map enc).flatten ++ rest)) =
      .ok (xs, b.withBytes rest) := by
  induction xs with
  | nil => rfl
  | cons x xs ih =>
    simp only [List.length_cons, readEach, List.map_cons, List.flatten_cons, List.append_assoc,
      bind, Except.bind, h x (List.mem_cons_self _ _) b]
    rw [ih (fun y hy => h y (List.mem_cons_of_mem _ hy))]
    rfl

/-- C5: for every Vector serializer over an inner serializer `T` and every
sequence `xs`, `appendByteBuffer` writes the varint of the number of
elements and then runs `T`'s wire encoder on the elements in order; when
`T` appends `enc x` for each element `x`, the bytes appended are the varint
followed by `enc x1 .. enc xn` in that order; and when `T`'s `fromByteBuffer`
undoes this on each element, consuming exactly `enc x`, `fromByteBuffer` on
the appended bytes returns `xs`, in the same order, and consumes exactly
those bytes. -/
theorem C5_vector_wire (p : Platform) (config : Config) (T : Serializer)
    (enc : JsVal → List Byte) (xs : List JsVal) :
    ∃ S, createType p "Vector" config [TypeArg.ofSerializer T] = .ok S ∧
      (∀ b, S.appendByteBuffer b (JsVal.arr xs) =
        appendEach T.appendByteBuffer (b.append (varint xs.length)) xs) ∧
      ((∀ x ∈ xs, ∀ b, T.appendByteBuffer b x = .ok (b.append (enc x))) →
        (∀ b, S.appendByteBuffer b (JsVal.arr xs) =
          .ok (b.append (varint xs.length ++ (xs.map enc).flatten))) ∧
        ((∀ x ∈ xs, ∀ (b : ByteBuffer) (rest : List Byte),
            T.fromByteBuffer (b.withBytes (enc x ++ rest)) = .ok (x, b.withBytes rest)) →
          ∀ (b : ByteBuffer) (rest : List Byte),
            S.fromByteBuffer (b.withBytes ((varint xs.length ++ (xs.map enc).flatten) ++ rest)) =
              .ok (JsVal.arr xs, b.withBytes rest))) := by
  refine ⟨_, createType_vector p config T, ?_, ?_⟩
  · intro b
    simp [vector.appendByteBuffer, validate, descriptor, isEmpty, JsVal.length, iterate,
      innerType_ofSerializer, ByteBuffer.writeVarint32, varint, pure, Except.pure, bind,
      Except.bind]
  · intro henc
    refine ⟨?_, ?_⟩
    · intro b
      simp [vector.appendByteBuffer, validate, descriptor, isEmpty, JsVal.length, iterate,
        innerType_ofSerializer, ByteBuffer.writeVarint32, varint, pure, Except.pure, bind,
        Except.bind, appendEach_enc T.appendByteBuffer enc xs henc, ByteBuffer.append]
    · intro hdec b rest
      simp only [vector.fromByteBuffer, descriptor, innerType_ofSerializer, List.append_assoc,
        readVarint32_varint, bind, Except.bind, readEach_enc T.fromByteBuffer enc xs hdec]
      rfl
/-- C5 at a concrete input: a Vector of UInt8 writes `[1, 2]` as the count 2
followed by the two bytes, and reads it back. -/
theorem C5_vector_wire_witness :
    ∃ T S, createType ⟨fun _ => none⟩ "UInt8" {} [] = .ok T ∧
      createType ⟨fun _ => none⟩ "Vector" {} [TypeArg.ofSerializer T] = .ok S ∧
      S.appendByteBuffer ⟨true, []⟩ (JsVal.arr [JsVal.num 1, JsVal.num 2]) = .ok ⟨true, [2, 1, 2]⟩ ∧
      S.fromByteBuffer ⟨true, [2, 1, 2, 9]⟩ =
        .ok (JsVal.arr [JsVal.num 1, JsVal.num 2], ⟨true, [9]⟩) := by
  obtain ⟨S, hS, _, h⟩ := C5_vector_wire ⟨fun _ => none⟩ {}
    (intbuf (descriptor "UInt8" {} { bits := some 8 }))
    (fun x => match x with
      | .num n => [Fin.ofNat (n % 256).toNat]
      | _ => [])
    [JsVal.num 1, JsVal.num 2]
  have henc : ∀ x ∈ [JsVal.num 1, JsVal.num 2], ∀ b : ByteBuffer,
      (intbuf (descriptor "UInt8" {} { bits := some 8 })).appendByteBuffer b x =
        .ok (b.append ((fun x => match x with
          | .num n => [Fin.ofNat (n % 256).toNat]
          | _ => []) x)) := by
    intro x hx b
    simp only [List.mem_cons, List.mem_singleton, List.not_mem_nil, or_false] at hx
    rcases b with ⟨le, bytes⟩
    rcases hx with rfl | rfl <;> cases le <;> rfl
  have hdec : ∀ x ∈ [JsVal.num 1, JsVal.num 2], ∀ (b : ByteBuffer) (rest : List Byte),
      (intbuf (descriptor "UInt8" {} { bits := some 8 })).fromByteBuffer
        (b.withBytes ((fun x => match x with
          | .num n => [Fin.ofNat (n % 256).toNat]
          | _ => []) x ++ rest)) = .ok (x, b.withBytes rest) := by
    intro x hx b rest
    simp only [List.mem_cons, List.mem_singleton, List.not_mem_nil, or_false] at hx
    rcases b with ⟨le, bytes⟩
    rcases hx with rfl | rfl <;> cases le <;> rfl
  obtain ⟨h1, h2⟩ := h henc
  exact ⟨_, S, rfl, hS, h1 ⟨true, []⟩, h2 hdec ⟨true, []⟩ [9]⟩

/-- C6: for every Optional serializer over an inner serializer `T`:
`appendByteBuffer` of an absent value appends exactly the byte 0;
`appendByteBuffer` of a present value appends the byte 1 and then runs `T`'s
wire encoder on the value; `fromByteBuffer` on a cursor whose next byte is 0
returns `null` and consumes exactly that byte, whatever `T` is. -/
theorem C6_optional_wire (p : Platform) (config : Config) (T : Serializer) :
    ∃ S, createType p "Optional" config [TypeArg.ofSerializer T] = .ok S ∧
      (∀ (b : ByteBuffer) (value : JsVal), isEmpty value = true →
        S.appendByteBuffer b value = .ok (b.append [0])) ∧
      (∀ (b : ByteBuffer) (value : JsVal), isEmpty value = false →
        S.appendByteBuffer b value = T.appendByteBuffer (b.append [1]) value) ∧
      (∀ (b : ByteBuffer) (rest : List Byte),
        S.fromByteBuffer (b.withBytes (0 :: rest)) = .ok (JsVal.null, b.withBytes rest)) := by
  refine ⟨_, createType_optional p config T, ?_, ?_, ?_⟩
  · intro b value he
    simp only [optional.appendByteBuffer, he, Bool.not_true, Bool.false_eq_true, ↓reduceIte]
    rfl
  · intro b value he
    simp only [optional.appendByteBuffer, he, Bool.not_false, ↓reduceIte, descriptor,
      innerType_ofSerializer]
    rfl
  · intro b rest
    rfl

/-- C6 at a concrete input: an Optional of UInt8 writes `null` as the single
byte 0 and the number 7 as the bytes 1, 7. -/
theorem C6_optional_wire_witness :
    ∃ T S, createType ⟨fun _ => none⟩ "UInt8" {} [] = .ok T ∧
      createType ⟨fun _ => none⟩ "Optional" {} [TypeArg.ofSerializer T] = .ok S ∧
      S.appendByteBuffer ⟨true, []⟩ JsVal.null = .ok ⟨true, [0]⟩ ∧
      S.appendByteBuffer ⟨true, []⟩ (JsVal.num 7) = .ok ⟨true, [1, 7]⟩ := by
  obtain ⟨S, hS, h0, h1, _⟩ := C6_optional_wire ⟨fun _ => none⟩ {}
    (intbuf (descriptor "UInt8" {} { bits := some 8 }))
  exact ⟨_, S, rfl, hS, h0 ⟨true, []⟩ JsVal.null rfl, (h1 ⟨true, []⟩ (JsVal.num 7) rfl).trans rfl⟩

/-- C7 (as stated) fails: UInt8 (8 bits) given the in-range decimal string
`5` returns that string, not a native number; UInt64 (64 bits) given the
in-range number 5 returns that number, not a decimal string. -/
theorem C7_integer_toObject_counterexample :
    (∃ S, createType ⟨fun _ => none⟩ "UInt8" {} [] = .ok S ∧
      S.toObject (JsVal.str "5") = .ok (JsVal.str "5") ∧ (JsVal.str "5").isNumber = false) ∧
    (∃ S, createType ⟨fun _ => none⟩ "UInt64" {} [] = .ok S ∧
      S.toObject (JsVal.num 5) = .ok (JsVal.num 5) ∧ (JsVal.num 5).isString = false) :=
  ⟨⟨_, rfl, rfl, rfl⟩, ⟨_, rfl, rfl, rfl⟩⟩

theorem intbuf_toObject_of_int (validation : Validation) (value : JsVal) (i : Int)
    (hne : isEmpty value = false) (hi : (jsString value).bind BN.ofString = some i) :
    intbuf.toObject validation value =
      if i < (if validation.signed.getD false then minSigned (validation.bits.getD 54) else 0) ∨
         i > (if validation.signed.getD false then maxSigned (validation.bits.getD 54)
              else maxUnsigned (validation.bits.getD 54))
      then .error (Err.overflow validation.typeName value
        (if validation.signed.getD false then maxSigned (validation.bits.getD 54)
              else maxUnsigned (validation.bits.getD 54))
        (if validation.signed.getD false then minSigned (validation.bits.getD 54) else 0)
        (validation.signed.getD false) (validation.bits.getD 54))
      else .ok (longToString value) := by
  unfold intbuf.toObject
  simp only [hne, Bool.false_eq_true, and_false, ↓reduceIte]
  rw [noOverflow_of_int value validation i hne hi]
  split_ifs <;> rfl

/-- C7 (amended): for every Integer serializer of the type table and every
in-range integer `v`, `toObject` keeps the form the value was given in,
whatever `bits` is: a native number whose text form is its own decimal
numeral (every number of magnitude below `2^53` is one) is returned as that
number, a decimal string as that string, and a 64-bit Long as its decimal
string. -/
theorem C7_integer_toObject_form (p : Platform) (config : Config)
    (name : String) (signed : Bool) (bits : Nat) (ht : (name, signed, bits) ∈ integerTypes)
    (v : Int)
    (hmin : (if signed then -(2 : Int) ^ (bits - 1) else 0) ≤ v)
    (hmax : v ≤ (if signed then (2 : Int) ^ (bits - 1) - 1 else (2 : Int) ^ bits - 1)) :
    ∃ S, createType p name config [] = .ok S ∧
      (numberString v = decimalString v → S.toObject (JsVal.num v) = .ok (JsVal.num v)) ∧
      (v.natAbs < 2 ^ 53 → S.toObject (JsVal.num v) = .ok (JsVal.num v)) ∧
      S.toObject (JsVal.str (decimalString v)) = .ok (JsVal.str (decimalString v)) ∧
      S.toObject (JsVal.long v) = .ok (JsVal.str (decimalString v)) := by
  have hnum : numberString v = decimalString v →
      intbuf.toObject { typeName := name, defaults := config.defaults.getD false,
                        debug := config.debug.getD false,
                        signed := if signed then some true else none, bits := some bits }
        (JsVal.num v) = .ok (JsVal.num v) := by
    intro hx
    rw [intbuf_toObject_of_int _ (JsVal.num v) v rfl (jsString_num_parse v hx)]
    cases signed <;>
      simp only [Option.getD_some, Option.getD_none, Bool.false_eq_true, ↓reduceIte,
        maxUnsigned, maxSigned, minSigned, one_mul] at hmin hmax ⊢
    · rw [if_neg (by omega)]; rfl
    · rw [if_neg (by omega)]; rfl
  refine ⟨_, createType_integer p config name signed bits ht, hnum,
    fun hs => hnum (numberString_small v hs), ?_, ?_⟩
  · show intbuf.toObject _ _ = _
    rw [intbuf_toObject_of_int _ (JsVal.str (decimalString v)) v rfl (jsString_str_parse v)]
    cases signed <;>
      simp only [Option.getD_some, Option.getD_none, Bool.false_eq_true, ↓reduceIte,
        maxUnsigned, maxSigned, minSigned, one_mul] at hmin hmax ⊢
    · rw [if_neg (by omega)]; rfl
    · rw [if_neg (by omega)]; rfl
  · show intbuf.toObject _ _ = _
    rw [intbuf_toObject_of_int _ (JsVal.long v) v rfl (jsString_long_parse v)]
    cases signed <;>
      simp only [Option.getD_some, Option.getD_none, Bool.false_eq_true, ↓reduceIte,
        maxUnsigned, maxSigned, minSigned, one_mul] at hmin hmax ⊢
    · rw [if_neg (by omega)]; rfl
    · rw [if_neg (by omega)]; rfl

/-- C7 (amended) at a concrete input: Int8 returns the Long -128 as the
decimal string of -128 and the number -128 as that number. -/
theorem C7_integer_toObject_form_witness :
    ∃ S, createType ⟨fun _ => none⟩ "Int8" {} [] = .ok S ∧
      S.toObject (JsVal.num (-128)) = .ok (JsVal.num (-128)) ∧
      S.toObject (JsVal.long (-128)) = .ok (JsVal.str (decimalString (-128))) := by
  obtain ⟨S, hS, _, h1, _, h3⟩ := C7_integer_toObject_form ⟨fun _ => none⟩ {} "Int8" true 8
    (by decide) (-128) (by decide) (by decide)
  exact ⟨S, hS, h1 (by decide), h3⟩

theorem hexValue_hexChar (d : Nat) (h : d < 16) : hexValue (hexChar d) = some d := by
  interval_cases d <;> rfl

theorem hexChar_mem (d : Nat) (h : d < 16) : hexChar d ∈ "0123456789abcdef".data := by
  interval_cases d <;> decide

theorem hexChar_utf16Size (d : Nat) (h : d < 16) : utf16Size (hexChar d) = 1 := by
  interval_cases d <;> rfl

theorem hexDecode_hexEncode (bs : List Byte) : hexDecode (hexEncode bs) = bs := by
  induction bs with
  | nil => rfl
  | cons x xs ih =>
    have h1 : x.val / 16 < 16 := by omega
    have h2 : x.val % 16 < 16 := by omega
    have hx : (Fin.ofNat (16 * (x.val / 16) + x.val % 16) : Fin 256) = x := by
      apply Fin.ext
      show (16 * (x.val / 16) + x.val % 16) % 256 = x.val
      omega
    simp only [hexEncode, hexDecode, hexValue_hexChar _ h1, hexValue_hexChar _ h2, ih, hx]

theorem hexEncode_utf16Length (bs : List Byte) :
    utf16Length (String.mk (hexEncode bs)) = 2 * bs.length := by
  unfold utf16Length
  induction bs with
  | nil => rfl
  | cons x xs ih =>
    simp only [hexEncode, List.map_cons, List.sum_cons, List.length_cons] at ih ⊢
    rw [ih, hexChar_utf16Size _ (by omega), hexChar_utf16Size _ (by omega)]
    omega

theorem hexEncode_chars (bs : List Byte) :
    ∀ c ∈ hexEncode bs, c ∈ "0123456789abcdef".data := by
  induction bs with
  | nil => intro c hc; cases hc
  | cons x xs ih =>
    intro c hc
    simp only [hexEncode, List.mem_cons] at hc
    rcases hc with rfl | rfl | hc
    · exact hexChar_mem _ (by omega)
    · exact hexChar_mem _ (by omega)
    · exact ih c hc

/-- `validate` on a present value with a length that meets the exact length
`len` when one is declared, under no `maxLen`. -/
theorem validate_accepts (value : JsVal) (validation : Validation) (l : Nat)
    (hne : isEmpty value = false) (hl : value.length = some l)
    (hlen : ∀ len, validation.len = some len → l = len) (hmax : validation.maxLen = none) :
    validate value validation = .ok () := by
  cases h : validation.len with
  | none => exact validate_plain value validation hne h hmax
  | some len =>
    rw [validate_len value validation len l hne hl h hmax, if_pos (hlen len h)]

/-- C8: for every Bytes serializer of the type table and every byte sequence
`bs` it accepts (of length `len` when `len` is fixed, of any length
otherwise), `toObject` returns a string of exactly `2 * |bs|` characters, all
among `0-9a-f`; `fromObject` of that string returns `bs`; and `fromObject` of
the byte sequence itself returns it unchanged. -/
theorem C8_bytes_hex_roundtrip (p : Platform) (config : Config) (name : String)
    (len : Option Nat) (ht : (name, len) ∈ bytesTypes) (bs : List Byte)
    (hlen : ∀ l, len = some l → bs.length = l) :
    ∃ S, createType p name config [] = .ok S ∧
      ∃ hex : String, S.toObject (JsVal.buf bs) = .ok (JsVal.str hex) ∧
        utf16Length hex = 2 * bs.length ∧
        (∀ c ∈ hex.data, c ∈ "0123456789abcdef".data) ∧
        S.fromObject (JsVal.str hex) = .ok (JsVal.buf bs) ∧
        S.fromObject (JsVal.buf bs) = .ok (JsVal.buf bs) := by
  refine ⟨_, createType_bytes p config name len ht, String.mk (hexEncode bs), ?_,
    hexEncode_utf16Length bs, hexEncode_chars bs, ?_, ?_⟩
  · have he : isEmpty (JsVal.buf bs) = false := rfl
    simp only [bytebuf, bytebuf.toObject, he, Bool.false_eq_true, and_false, ↓reduceIte]
    rw [validate_accepts (JsVal.buf bs) _ bs.length rfl rfl hlen rfl]
    rfl
  · simp only [bytebuf, bytebuf.fromObject, hexDecode_hexEncode]
    rw [validate_accepts (JsVal.buf bs) _ bs.length rfl rfl hlen rfl]
    rfl
  · simp only [bytebuf, bytebuf.fromObject]
    rw [validate_accepts (JsVal.buf bs) _ bs.length rfl rfl hlen rfl]
    rfl

/-- C8 at a concrete input: a 32-byte value of FixedBytes32 goes through a
64-character hexadecimal string and back. -/
theorem C8_bytes_hex_roundtrip_witness :
    ∃ S, createType ⟨fun _ => none⟩ "FixedBytes32" {} [] = .ok S ∧
      ∃ hex : String, S.toObject (JsVal.buf (List.replicate 32 171)) = .ok (JsVal.str hex) ∧
        utf16Length hex = 64 ∧
        S.fromObject (JsVal.str hex) = .ok (JsVal.buf (List.replicate 32 171)) := by
  obtain ⟨S, hS, hex, h1, h2, _, h4, _⟩ := C8_bytes_hex_roundtrip ⟨fun _ => none⟩ {}
    "FixedBytes32" (some 32) (by decide) (List.replicate 32 171)
    (by intro l hl; cases hl; rfl)
  exact ⟨S, hS, hex, h1, h2, h4⟩

/-- A present value never fails `validate` with the required-value error. -/
theorem validate_not_required (value : JsVal) (validation : Validation)
    (hne : isEmpty value = false) (t : String) :
    validate value validation ≠ .error (Err.required t) := by
  unfold validate
  simp only [hne, Bool.false_eq_true, ↓reduceIte]
  rcases hl : validation.len with _ | len <;> rcases hm : validation.maxLen with _ | m <;>
    rcases hv : value.length with _ | l <;>
    simp only [bind, Except.bind, pure, Except.pure, throw, throwThe, MonadExceptOf.throw] <;>
    intro h <;> (try split_ifs at h) <;> simp at h

/-- A present value never fails `noOverflow` with the required-value error. -/
theorem noOverflow_not_required (value : JsVal) (validation : Validation)
    (hne : isEmpty value = false) (t : String) :
    noOverflow value validation ≠ .error (Err.required t) := by
  unfold noOverflow
  simp only [hne, Bool.false_eq_true, ↓reduceIte]
  intro h
  rcases hp : (jsString value).bind BN.ofString with _ | i
  · rw [hp] at h
    simp [bind, Except.bind, pure, Except.pure, throw, throwThe, MonadExceptOf.throw] at h
  · rw [hp] at h
    simp only [bind, Except.bind, pure, Except.pure, throw, throwThe, MonadExceptOf.throw] at h
    split_ifs at h <;> simp at h

/-- An absent value fails `noOverflow` with the required-value error. -/
theorem noOverflow_empty (value : JsVal) (validation : Validation) (he : isEmpty value = true) :
    noOverflow value validation = .error (Err.required validation.typeName) := by
  unfold noOverflow
  simp only [he, ↓reduceIte]
  rfl
theorem bind_ne_error {α β : Type} (r : Except Err α) (k : α → Except Err β) (e : Err)
    (h1 : r ≠ .error e) (h2 : ∀ a, k a ≠ .error e) : (r >>= k) ≠ .error e := by
  cases r with
  | error e1 =>
    intro h
    apply h1
    simpa [bind, Except.bind] using h
  | ok a => exact h2 a

theorem isEmpty_hexed (value : JsVal) :
    isEmpty (match value with
      | .str s => JsVal.buf (hexDecode s.data)
      | v => v) = isEmpty value := by
  cases value <;> rfl

theorem intbuf_fromObject_required_iff (validation : Validation) (value : JsVal) :
    intbuf.fromObject validation value = .error (Err.required validation.typeName) ↔
      isEmpty value = true := by
  unfold intbuf.fromObject
  cases he : isEmpty value with
  | true => simp [noOverflow_empty value validation he, bind, Except.bind]
  | false =>
    simp only [Bool.false_eq_true, iff_false]
    exact bind_ne_error _ _ _ (noOverflow_not_required value validation he _)
      (fun _ => by simp [pure, Except.pure])

theorem intbuf_toObject_required_iff (validation : Validation) (value : JsVal)
    (hd : validation.defaults = false) :
    intbuf.toObject validation value = .error (Err.required validation.typeName) ↔
      isEmpty value = true := by
  unfold intbuf.toObject
  simp only [hd, Bool.false_eq_true, false_and, ↓reduceIte, pure_bind]
  cases he : isEmpty value with
  | true => simp [noOverflow_empty value validation he, bind, Except.bind]
  | false =>
    simp only [Bool.false_eq_true, iff_false]
    exact bind_ne_error _ _ _ (noOverflow_not_required value validation he _)
      (fun _ => by simp [pure, Except.pure])

theorem string_fromObject_required_iff (validation : Validation) (value : JsVal) :
    string.fromObject validation value = .error (Err.required validation.typeName) ↔
      isEmpty value = true := by
  unfold string.fromObject
  cases he : isEmpty value with
  | true => simp [validate_empty value validation he, bind, Except.bind]
  | false =>
    simp only [Bool.false_eq_true, iff_false]
    exact bind_ne_error _ _ _ (validate_not_required value validation he _)
      (fun _ => by simp [pure, Except.pure])

theorem string_toObject_required_iff (validation : Validation) (value : JsVal)
    (hd : validation.defaults = false) :
    string.toObject validation value = .error (Err.required validation.typeName) ↔
      isEmpty value = true := by
  unfold string.toObject
  simp only [hd, Bool.false_eq_true, false_and, ↓reduceIte, pure_bind]
  cases he : isEmpty value with
  | true => simp [validate_empty value validation he, bind, Except.bind]
  | false =>
    simp only [Bool.false_eq_true, iff_false]
    exact bind_ne_error _ _ _ (validate_not_required value validation he _)
      (fun _ => by simp [pure, Except.pure])

theorem bytebuf_fromObject_required_iff (validation : Validation) (value : JsVal) :
    bytebuf.fromObject validation value = .error (Err.required validation.typeName) ↔
      isEmpty value = true := by
  unfold bytebuf.fromObject
  simp only
  cases he : isEmpty value with
  | true =>
    simp [validate_empty _ validation ((isEmpty_hexed value).trans he), bind, Except.bind]
  | false =>
    simp only [Bool.false_eq_true, iff_false]
    exact bind_ne_error _ _ _
      (validate_not_required _ validation ((isEmpty_hexed value).trans he) _)
      (fun _ => by simp [pure, Except.pure])

theorem bytebuf_toObject_required_iff (validation : Validation) (value : JsVal)
    (hd : validation.defaults = false) :
    bytebuf.toObject validation value = .error (Err.required validation.typeName) ↔
      isEmpty value = true := by
  unfold bytebuf.toObject
  simp only [hd, Bool.false_eq_true, false_and, ↓reduceIte, pure_bind]
  cases he : isEmpty value with
  | true => simp [validate_empty value validation he, bind, Except.bind]
  | false =>
    simp only [Bool.false_eq_true, iff_false]
    refine bind_ne_error _ _ _ (validate_not_required value validation he _) (fun _ => ?_)
    cases value <;> simp [pure, Except.pure, throw, throwThe, MonadExceptOf.throw]

theorem time_fromObject_required_iff (p : Platform) (validation : Validation) (value : JsVal) :
    time.fromObject p validation value = .error (Err.required validation.typeName) ↔
      isEmpty value = true := by
  unfold time.fromObject
  cases he : isEmpty value with
  | true => simp [validate_empty value validation he, bind, Except.bind]
  | false =>
    simp only [Bool.false_eq_true, iff_false]
    refine bind_ne_error _ _ _ (validate_not_required value validation he _) (fun _ => ?_)
    cases value <;> simp [pure, Except.pure, throw, throwThe, MonadExceptOf.throw]
    split <;> simp

theorem time_toObject_required_iff (validation : Validation) (value : JsVal)
    (hd : validation.defaults = false) :
    time.toObject validation value = .error (Err.required validation.typeName) ↔
      isEmpty value = true := by
  unfold time.toObject
  simp only [hd, Bool.false_eq_true, false_and, ↓reduceIte, pure_bind]
  cases he : isEmpty value with
  | true => simp [validate_empty value validation he, bind, Except.bind]
  | false =>
    simp only [Bool.false_eq_true, iff_false]
    refine bind_ne_error _ _ _ (validate_not_required value validation he _) (fun _ => ?_)
    refine bind_ne_error _ _ _ (noOverflow_not_required value _ he _) (fun _ => ?_)
    split <;> simp [pure, Except.pure, throw, throwThe, MonadExceptOf.throw]
theorem mapEach_error (f : JsVal → Except Err JsVal) (os : List JsVal) (e : Err)
    (h : mapEach f os = .error e) : ∃ o ∈ os, f o = .error e := by
  induction os with
  | nil => simp [mapEach, pure, Except.pure] at h
  | cons o os ih =>
    simp only [mapEach, bind, Except.bind] at h
    cases ho : f o with
    | error e1 =>
      rw [ho] at h
      simp only at h
      exact ⟨o, List.mem_cons_self _ _, by rw [ho, Except.error.inj h]⟩
    | ok x =>
      rw [ho] at h
      simp only at h
      cases hos : mapEach f os with
      | error e2 =>
        rw [hos] at h
        simp only at h
        obtain ⟨o1, hm, hf⟩ := ih (by rw [hos, Except.error.inj h])
        exact ⟨o1, List.mem_cons_of_mem _ hm, hf⟩
      | ok xs =>
        rw [hos] at h
        simp [pure, Except.pure] at h

/-- A Vector given a present value raises the required-value error only when
the inner operation raises it on one of the elements. -/
theorem vector_elements_required (validation : Validation) (f : JsVal → Except Err JsVal)
    (value : JsVal) (t : String)
    (h : (do
      validate value validation
      match iterate value with
      | some os =>
        let result ← mapEach f os
        pure (JsVal.arr result)
      | none => throw (Err.typeError "value is not iterable") : Except Err JsVal) =
        .error (Err.required t))
    (hne : isEmpty value = false) :
    ∃ o ∈ (iterate value).getD [], f o = .error (Err.required t) := by
  cases hv : validate value validation with
  | error e =>
    rw [hv] at h
    simp only [bind, Except.bind] at h
    rw [Except.error.inj h] at hv
    exact absurd hv (validate_not_required value validation hne t)
  | ok u =>
    rw [hv] at h
    simp only [bind, Except.bind] at h
    cases hi : iterate value with
    | none =>
      rw [hi] at h
      simp [throw, throwThe, MonadExceptOf.throw] at h
    | some os =>
      rw [hi] at h
      simp only at h
      cases hm : mapEach f os with
      | error e =>
        rw [hm] at h
        simp only at h
        rw [Except.error.inj h] at hm
        exact mapEach_error f os _ hm
      | ok xs =>
        rw [hm] at h
        simp [pure, Except.pure] at h

/-- C9 (as stated) fails for Vector: a Vector of Vector of UInt8 given the
present one-element sequence `[null]` raises `Required Vector`, through the
inner Vector's check on the element. -/
theorem C9_required_counterexample :
    ∃ U T S, createType ⟨fun _ => none⟩ "UInt8" {} [] = .ok U ∧
      createType ⟨fun _ => none⟩ "Vector" {} [TypeArg.ofSerializer U] = .ok T ∧
      createType ⟨fun _ => none⟩ "Vector" {} [TypeArg.ofSerializer T] = .ok S ∧
      isEmpty (JsVal.arr [JsVal.null]) = false ∧
      S.fromObject (JsVal.arr [JsVal.null]) = .error (Err.required "Vector") ∧
      S.toObject (JsVal.arr [JsVal.null]) = .error (Err.required "Vector") :=
  ⟨_, _, _, rfl, rfl, rfl, rfl, rfl, rfl⟩

/-- C9 (amended): for every scalar serializer of the type table (Integer,
Bytes, String, Time), `fromObject` raises `Required <typeName>` exactly when
the value is `null` or `undefined`, whatever `defaults` is, and `toObject`
does the same when `defaults` is false. For every Vector serializer over an
inner serializer `T`, the same equivalence holds for each value on whose
elements `T` does not itself raise `Required Vector`; the empty sequence is
accepted. -/
theorem C9_required_iff_absent (p : Platform) (config : Config) :
    (∀ name ∈ scalarTypeNames, ∃ S, createType p name config [] = .ok S ∧
      ∀ value : JsVal,
        (S.fromObject value = .error (Err.required name) ↔ isEmpty value = true) ∧
        (config.defaults.getD false = false →
          (S.toObject value = .error (Err.required name) ↔ isEmpty value = true))) ∧
    (∀ T : Serializer, ∃ S, createType p "Vector" config [TypeArg.ofSerializer T] = .ok S ∧
      S.fromObject (JsVal.arr []) = .ok (JsVal.arr []) ∧
      ∀ value : JsVal,
        ((∀ o ∈ (iterate value).getD [], T.fromObject o ≠ .error (Err.required "Vector")) →
          (S.fromObject value = .error (Err.required "Vector") ↔ isEmpty value = true)) ∧
        (config.defaults.getD false = false →
          (∀ o ∈ (iterate value).getD [], T.toObject o ≠ .error (Err.required "Vector")) →
          (S.toObject value = .error (Err.required "Vector") ↔ isEmpty value = true))) := by
  constructor
  · intro name hn
    simp only [scalarTypeNames, List.mem_cons, List.mem_singleton, List.not_mem_nil,
      or_false] at hn
    rcases hn with rfl | rfl | rfl | rfl | rfl | rfl | rfl | rfl | rfl | rfl | rfl | rfl | rfl |
      rfl | rfl | rfl | rfl | rfl | rfl
    all_goals
      refine ⟨_, rfl, fun value => ⟨?_, fun hd => ?_⟩⟩
    all_goals first
      | exact intbuf_fromObject_required_iff _ value
      | exact intbuf_toObject_required_iff _ value hd
      | exact bytebuf_fromObject_required_iff _ value
      | exact bytebuf_toObject_required_iff _ value hd
      | exact string_fromObject_required_iff _ value
      | exact string_toObject_required_iff _ value hd
      | exact time_fromObject_required_iff p _ value
      | exact time_toObject_required_iff _ value hd
  · intro T
    refine ⟨_, createType_vector p config T, rfl, fun value => ⟨?_, ?_⟩⟩
    · intro hT
      cases he : isEmpty value with
      | true =>
        simp only [iff_true]
        simp only [vector.fromObject]
        rw [validate_empty value _ he]
        rfl
      | false =>
        simp only [Bool.false_eq_true, iff_false]
        intro h
        obtain ⟨o, ho, hf⟩ := vector_elements_required _ _ value "Vector" h he
        exact hT o ho hf
    · intro hd hT
      have hd2 : (descriptor "Vector" config
          { type := some (TypeArg.ofSerializer T) }).defaults = false := hd
      cases he : isEmpty value with
      | true =>
        simp only [iff_true]
        simp only [vector.toObject, hd2, Bool.false_eq_true, false_and, ↓reduceIte, pure_bind]
        rw [validate_empty value _ he]
        rfl
      | false =>
        simp only [Bool.false_eq_true, iff_false]
        intro h
        simp only [vector.toObject, hd2, Bool.false_eq_true, false_and, ↓reduceIte,
          pure_bind] at h
        obtain ⟨o, ho, hf⟩ := vector_elements_required _ _ value "Vector" h he
        exact hT o ho hf

/-- C9 (amended) at concrete inputs: UInt8 raises `Required UInt8` on `null`,
and does not raise it on the number 0. -/
theorem C9_required_iff_absent_witness :
    ∃ S, createType ⟨fun _ => none⟩ "UInt8" {} [] = .ok S ∧
      S.fromObject JsVal.null = .error (Err.required "UInt8") ∧
      S.fromObject (JsVal.num 0) ≠ .error (Err.required "UInt8") ∧
      S.toObject JsVal.undefined = .error (Err.required "UInt8") := by
  obtain ⟨S, hS, h⟩ := (C9_required_iff_absent ⟨fun _ => none⟩ {}).1 "UInt8" (by decide)
  refine ⟨S, hS, (h JsVal.null).1.2 rfl, ?_, ((h JsVal.undefined).2 rfl).2 rfl⟩
  intro h0
  exact absurd ((h (JsVal.num 0)).1.1 h0) (by decide)

/-- `validate` on a present value with a length, under a bound `maxLen` and
no exact length. -/
theorem validate_maxLen (value : JsVal) (validation : Validation) (maxLen l : Nat)
    (hne : isEmpty value = false) (hl : value.length = some l)
    (hlen : validation.len = none) (hmax : validation.maxLen = some maxLen) :
    validate value validation =
      if l ≤ maxLen then .ok () else .error (Err.lengthExceeds validation.typeName l maxLen) := by
  unfold validate
  simp only [hne, hl, hlen, hmax, Bool.false_eq_true, ↓reduceIte]
  by_cases h : l ≤ maxLen
  · rw [if_pos h]
    have h2 : ¬ l > maxLen := by omega
    simp only [h2, ↓reduceIte]
    rfl
  · rw [if_neg h]
    have h2 : l > maxLen := by omega
    simp only [h2, ↓reduceIte]
    rfl

theorem createType_fixedString (p : Platform) (config : Config) (name : String) (m : Nat)
    (ht : (name, m) ∈ fixedStringTypes) :
    createType p name config [] =
      .ok (string { typeName := name, defaults := config.defaults.getD false,
                    debug := config.debug.getD false, maxLen := some m }) := by
  simp only [fixedStringTypes, List.mem_cons, Prod.mk.injEq, List.mem_singleton,
    List.not_mem_nil, or_false] at ht
  rcases ht with ⟨rfl, rfl⟩ | ⟨rfl, rfl⟩ <;> rfl

/-- C10: for every String serializer of the type table with a declared
`maxLen = m` (FixedString16, FixedString32) and every string `s`,
`fromObject`, `toObject` and `appendByteBuffer` accept `s` exactly when its
length is at most `m` (a string of exactly `m` characters is accepted) and
otherwise raise the length error carrying the type name, the actual length
and `m`; `fromObject` and `toObject` return an accepted `s` unchanged; and
the String serializer without `maxLen` accepts strings of every length. -/
theorem C10_string_maxLen (p : Platform) (config : Config) :
    (∀ (name : String) (m : Nat), (name, m) ∈ fixedStringTypes →
      ∃ S, createType p name config [] = .ok S ∧
        ∀ s : String,
          (S.fromObject (JsVal.str s) =
            if utf16Length s ≤ m then .ok (JsVal.str s)
            else .error (Err.lengthExceeds name (utf16Length s) m)) ∧
          (S.toObject (JsVal.str s) =
            if utf16Length s ≤ m then .ok (JsVal.str s)
            else .error (Err.lengthExceeds name (utf16Length s) m)) ∧
          (∀ b : ByteBuffer, S.appendByteBuffer b (JsVal.str s) =
            if utf16Length s ≤ m then .ok (b.writeVString s)
            else .error (Err.lengthExceeds name (utf16Length s) m))) ∧
    (∃ S, createType p "String" config [] = .ok S ∧
      ∀ s : String,
        S.fromObject (JsVal.str s) = .ok (JsVal.str s) ∧
        S.toObject (JsVal.str s) = .ok (JsVal.str s) ∧
        (∀ b : ByteBuffer, S.appendByteBuffer b (JsVal.str s) = .ok (b.writeVString s))) := by
  constructor
  · intro name m ht
    refine ⟨_, createType_fixedString p config name m ht, ?_⟩
    intro s
    have he : isEmpty (JsVal.str s) = false := rfl
    have hv := fun (d g : Bool) => validate_maxLen (JsVal.str s)
      { typeName := name, defaults := d, debug := g, maxLen := some m } m (utf16Length s)
      rfl rfl rfl rfl
    refine ⟨?_, ?_, ?_⟩
    · simp only [string, string.fromObject, hv]
      split_ifs <;> rfl
    · simp only [string, string.toObject, he, Bool.false_eq_true, and_false, ↓reduceIte, hv]
      split_ifs <;> rfl
    · intro b
      simp only [string, string.appendByteBuffer, hv]
      split_ifs <;> rfl
  · refine ⟨_, rfl, ?_⟩
    intro s
    refine ⟨rfl, ?_, fun b => rfl⟩
    have he : isEmpty (JsVal.str s) = false := rfl
    simp only [string, string.toObject, he, Bool.false_eq_true, and_false, ↓reduceIte]
    rfl

/-- C10 at a concrete input: FixedString16 accepts a string of exactly 16
characters and rejects one of 17. -/
theorem C10_string_maxLen_witness :
    ∃ S, createType ⟨fun _ => none⟩ "FixedString16" {} [] = .ok S ∧
      S.fromObject (JsVal.str "0123456789abcdef") = .ok (JsVal.str "0123456789abcdef") ∧
      S.fromObject (JsVal.str "0123456789abcdefg") =
        .error (Err.lengthExceeds "FixedString16" 17 16) := by
  obtain ⟨S, hS, h⟩ := (C10_string_maxLen ⟨fun _ => none⟩ {}).1 "FixedString16" 16 (by decide)
  exact ⟨S, hS, (h "0123456789abcdef").1.trans rfl, (h "0123456789abcdefg").1.trans rfl⟩

/-- `isSerializer` answers `true` exactly on an object holding all four
operations. -/
theorem isSerializer_ok_true (t : Option TypeArg) :
    isSerializer t = .ok true ↔
      ∃ fb ab fo tobj, t = some (TypeArg.object (some fb) (some ab) (some fo) (some tobj)) := by
  constructor
  · intro h
    rcases t with _ | t
    · simp [isSerializer, pure, Except.pure] at h
    · rcases t with v | ⟨fb, ab, fo, tobj⟩
      · cases v <;> simp [isSerializer, pure, Except.pure, throw, throwThe, MonadExceptOf.throw] at h
      · rcases fb with _ | fb <;> rcases ab with _ | ab <;> rcases fo with _ | fo <;>
          rcases tobj with _ | tobj <;>
          first
            | exact ⟨fb, ab, fo, tobj, rfl⟩
            | simp [isSerializer, pure, Except.pure] at h
  · rintro ⟨fb, ab, fo, tobj, rfl⟩
    rfl

/-- Construction of a Vector succeeds exactly when `isSerializer` answers
`true`, and otherwise raises a `TypeError`. -/
theorem vector_ok_iff (validation : Validation) :
    ((∃ S, vector validation = .ok S) ↔ isSerializer validation.type = .ok true) ∧
    (isSerializer validation.type ≠ .ok true → ∃ msg, vector validation = .error (Err.typeError msg)) := by
  unfold vector
  rcases h : isSerializer validation.type with e | b
  · have he : ∃ msg, e = Err.typeError msg := by
      rcases ht : validation.type with _ | t
      · rw [ht] at h; simp [isSerializer, pure, Except.pure] at h
      · rw [ht] at h
        rcases t with v | ⟨fb, ab, fo, tobj⟩
        · cases v <;>
            simp [isSerializer, pure, Except.pure, throw, throwThe, MonadExceptOf.throw] at h
          exact ⟨_, h.symm⟩
        · rcases fb with _ | fb <;> rcases ab with _ | ab <;> rcases fo with _ | fo <;>
            rcases tobj with _ | tobj <;> simp [isSerializer, pure, Except.pure] at h
    obtain ⟨msg, rfl⟩ := he
    simp [bind, Except.bind]
  · cases b <;> simp [bind, Except.bind, pure, Except.pure, throw, throwThe, MonadExceptOf.throw]

/-- Construction of an Optional succeeds exactly when `isSerializer` answers
`true`, and otherwise raises a `TypeError`. -/
theorem optional_ok_iff (validation : Validation) :
    ((∃ S, optional validation = .ok S) ↔ isSerializer validation.type = .ok true) ∧
    (isSerializer validation.type ≠ .ok true →
      ∃ msg, optional validation = .error (Err.typeError msg)) := by
  unfold optional
  rcases h : isSerializer validation.type with e | b
  · have he : ∃ msg, e = Err.typeError msg := by
      rcases ht : validation.type with _ | t
      · rw [ht] at h; simp [isSerializer, pure, Except.pure] at h
      · rw [ht] at h
        rcases t with v | ⟨fb, ab, fo, tobj⟩
        · cases v <;>
            simp [isSerializer, pure, Except.pure, throw, throwThe, MonadExceptOf.throw] at h
          exact ⟨_, h.symm⟩
        · rcases fb with _ | fb <;> rcases ab with _ | ab <;> rcases fo with _ | fo <;>
            rcases tobj with _ | tobj <;> simp [isSerializer, pure, Except.pure] at h
    obtain ⟨msg, rfl⟩ := he
    simp [bind, Except.bind]
  · cases b <;> simp [bind, Except.bind, pure, Except.pure, throw, throwThe, MonadExceptOf.throw]

/-- C11: constructing a Vector or an Optional over a declared inner type `t`
succeeds if and only if `t` is an object exposing all four operations
`fromByteBuffer`, `appendByteBuffer`, `fromObject`, `toObject` as functions;
for every other `t` the construction itself raises a `TypeError`, so no
serializer (and no operation to call) is returned. In particular a raw
number, a string and an object missing one of the four are refused. -/
theorem C11_composite_construction (p : Platform) (config : Config) (t : TypeArg) :
    ((∃ S, createType p "Vector" config [t] = .ok S) ↔
      ∃ fb ab fo tobj, t = TypeArg.object (some fb) (some ab) (some fo) (some tobj)) ∧
    ((∃ S, createType p "Optional" config [t] = .ok S) ↔
      ∃ fb ab fo tobj, t = TypeArg.object (some fb) (some ab) (some fo) (some tobj)) ∧
    ((¬ ∃ fb ab fo tobj, t = TypeArg.object (some fb) (some ab) (some fo) (some tobj)) →
      (∃ msg, createType p "Vector" config [t] = .error (Err.typeError msg)) ∧
      (∃ msg, createType p "Optional" config [t] = .error (Err.typeError msg))) ∧
    createType p "Vector" config [TypeArg.value (JsVal.num 5)] =
      .error (Err.typeError "Vector type should be a serializer") ∧
    createType p "Optional" config [TypeArg.value (JsVal.str "UInt8")] =
      .error (Err.typeError "Optional parameter should be a serializer") ∧
    (∀ fb ab fo, createType p "Vector" config [TypeArg.object (some fb) (some ab) (some fo) none] =
      .error (Err.typeError "Vector type should be a serializer")) := by
  have hv := vector_ok_iff (descriptor "Vector" config { type := some t })
  have ho := optional_ok_iff (descriptor "Optional" config { type := some t })
  have hs := isSerializer_ok_true (some t)
  simp only [Option.some.injEq] at hs
  refine ⟨?_, ?_, ?_, rfl, rfl, fun _ _ _ => rfl⟩
  · exact hv.1.trans hs
  · exact ho.1.trans hs
  · intro hn
    exact ⟨hv.2 (fun h => hn (hs.1 h)), ho.2 (fun h => hn (hs.1 h))⟩

/-- C11 at a concrete input: an object that lacks `toObject` is refused by
Vector and by Optional. -/
theorem C11_composite_construction_witness :
    (∃ msg, createType ⟨fun _ => none⟩ "Vector" {}
      [TypeArg.object (some (fun b => .ok (JsVal.null, b))) (some (fun b _ => .ok b))
        (some (fun v => .ok v)) none] = .error (Err.typeError msg)) ∧
    (∃ msg, createType ⟨fun _ => none⟩ "Optional" {}
      [TypeArg.object (some (fun b => .ok (JsVal.null, b))) (some (fun b _ => .ok b))
        (some (fun v => .ok v)) none] = .error (Err.typeError msg)) :=
  (C11_composite_construction ⟨fun _ => none⟩ {}
    (TypeArg.object (some (fun b => .ok (JsVal.null, b))) (some (fun b _ => .ok b))
      (some (fun v => .ok v)) none)).2.2.1
    (by
      rintro ⟨fb, ab, fo, tobj, h⟩
      cases h)

theorem mapEach_ok (f : JsVal → Except Err JsVal) (xs ys : List JsVal)
    (h : List.Forall₂ (fun x y => f x = .ok y) xs ys) : mapEach f xs = .ok ys := by
  induction h with
  | nil => rfl
  | cons hxy _ ih => simp [mapEach, hxy, ih, bind, Except.bind, pure, Except.pure]

theorem mapEach_fails (f : JsVal → Except Err JsVal) (xs : List JsVal)
    (h : ∃ x ∈ xs, ∃ e, f x = .error e) : ∃ e, mapEach f xs = .error e := by
  induction xs with
  | nil =>
    obtain ⟨x, hx, _⟩ := h
    cases hx
  | cons x xs ih =>
    cases hfx : f x with
    | error e => exact ⟨e, by simp [mapEach, hfx, bind, Except.bind]⟩
    | ok y =>
      have h2 : ∃ x ∈ xs, ∃ e, f x = .error e := by
        obtain ⟨x1, hx1, e, he⟩ := h
        rcases List.mem_cons.1 hx1 with rfl | hm
        · rw [hfx] at he
          cases he
        · exact ⟨x1, hm, e, he⟩
      obtain ⟨e, he⟩ := ih h2
      exact ⟨e, by simp [mapEach, hfx, he, bind, Except.bind]⟩

theorem vector_fromObject_arr (validation : Validation) (xs : List JsVal)
    (hlen : validation.len = none) (hmax : validation.maxLen = none) :
    vector.fromObject validation (JsVal.arr xs) =
      (mapEach (innerType validation.type).fromObject xs).map JsVal.arr := by
  unfold vector.fromObject
  rw [validate_plain (JsVal.arr xs) validation rfl hlen hmax]
  simp only [iterate, bind, Except.bind, pure, Except.pure, Except.map]

theorem vector_toObject_arr (validation : Validation) (xs : List JsVal)
    (hlen : validation.len = none) (hmax : validation.maxLen = none) :
    vector.toObject validation (JsVal.arr xs) =
      (mapEach (innerType validation.type).toObject xs).map JsVal.arr := by
  unfold vector.toObject
  have he : isEmpty (JsVal.arr xs) = false := rfl
  simp only [he, Bool.false_eq_true, and_false, ↓reduceIte, pure_bind]
  rw [validate_plain (JsVal.arr xs) validation rfl hlen hmax]
  simp only [iterate, bind, Except.bind, pure, Except.pure, Except.map]

/-- C12: for every Vector serializer over an inner serializer `T` and every
sequence `xs = [x1..xn]`: when `T.fromObject` returns `yi` on each `xi`,
`fromObject` returns `[y1..yn]`, of the same length and in the same order,
and when `T.fromObject` fails on some element the whole call fails; the
same holds for `toObject` with `T.toObject`. -/
theorem C12_vector_canonical_map (p : Platform) (config : Config) (T : Serializer)
    (xs : List JsVal) :
    ∃ S, createType p "Vector" config [TypeArg.ofSerializer T] = .ok S ∧
      (∀ ys, List.Forall₂ (fun x y => T.fromObject x = .ok y) xs ys →
        S.fromObject (JsVal.arr xs) = .ok (JsVal.arr ys) ∧ ys.length = xs.length) ∧
      ((∃ x ∈ xs, ∃ e, T.fromObject x = .error e) →
        ∃ e, S.fromObject (JsVal.arr xs) = .error e) ∧
      (∀ ys, List.Forall₂ (fun x y => T.toObject x = .ok y) xs ys →
        S.toObject (JsVal.arr xs) = .ok (JsVal.arr ys) ∧ ys.length = xs.length) ∧
      ((∃ x ∈ xs, ∃ e, T.toObject x = .error e) →
        ∃ e, S.toObject (JsVal.arr xs) = .error e) := by
  have hf := vector_fromObject_arr
    (descriptor "Vector" config { type := some (TypeArg.ofSerializer T) }) xs rfl rfl
  have ht := vector_toObject_arr
    (descriptor "Vector" config { type := some (TypeArg.ofSerializer T) }) xs rfl rfl
  simp only [descriptor, innerType_ofSerializer] at hf ht
  refine ⟨_, createType_vector p config T, ?_, ?_, ?_, ?_⟩
  · intro ys h
    refine ⟨?_, h.length_eq.symm⟩
    simp only [descriptor, hf, mapEach_ok T.fromObject xs ys h]
    rfl
  · intro h
    obtain ⟨e, he⟩ := mapEach_fails T.fromObject xs h
    refine ⟨e, ?_⟩
    simp only [descriptor, hf, he]
    rfl
  · intro ys h
    refine ⟨?_, h.length_eq.symm⟩
    simp only [descriptor, ht, mapEach_ok T.toObject xs ys h]
    rfl
  · intro h
    obtain ⟨e, he⟩ := mapEach_fails T.toObject xs h
    refine ⟨e, ?_⟩
    simp only [descriptor, ht, he]
    rfl

/-- C12 at a concrete input: a Vector of Bytes turns the hexadecimal texts
`00` and `ff` into the two one-byte buffers, in that order. -/
theorem C12_vector_canonical_map_witness :
    ∃ S, createType ⟨fun _ => none⟩ "Vector" {}
        [TypeArg.ofSerializer (bytebuf (descriptor "Bytes" {} {}))] = .ok S ∧
      S.fromObject (JsVal.arr [JsVal.str "00", JsVal.str "ff"]) =
        .ok (JsVal.arr [JsVal.buf [0], JsVal.buf [255]]) := by
  obtain ⟨S, hS, h, _⟩ := C12_vector_canonical_map ⟨fun _ => none⟩ {}
    (bytebuf (descriptor "Bytes" {} {})) [JsVal.str "00", JsVal.str "ff"]
  exact ⟨S, hS, (h [JsVal.buf [0], JsVal.buf [255]]
    (List.Forall₂.cons rfl (List.Forall₂.cons rfl List.Forall₂.nil))).1⟩

/-- C13: for every Optional serializer over an inner serializer `T`:
`fromObject` of an absent value returns `null` whatever `T` and `defaults`
are; `toObject` of an absent value returns `null` whatever `T` is when
`defaults` is false, and returns `T.toObject` of that absent value when
`defaults` is true; for every present value `v`, `fromObject v` is
`T.fromObject v` and `toObject v` is `T.toObject v`. -/
theorem C13_optional_canonical (p : Platform) (config : Config) (T : Serializer) :
    ∃ S, createType p "Optional" config [TypeArg.ofSerializer T] = .ok S ∧
      (∀ value, isEmpty value = true → S.fromObject value = .ok JsVal.null) ∧
      (∀ value, isEmpty value = true → config.defaults.getD false = false →
        S.toObject value = .ok JsVal.null) ∧
      (∀ value, isEmpty value = true → config.defaults.getD false = true →
        S.toObject value = T.toObject value) ∧
      (∀ value, isEmpty value = false →
        S.fromObject value = T.fromObject value ∧ S.toObject value = T.toObject value) := by
  refine ⟨_, createType_optional p config T, ?_, ?_, ?_, ?_⟩
  · intro value he
    simp only [optional.fromObject, he, ↓reduceIte]
    rfl
  · intro value he hd
    simp only [optional.toObject, descriptor, he, hd, Bool.not_false, and_self, ↓reduceIte]
    rfl
  · intro value he hd
    simp only [optional.toObject, descriptor, he, hd, Bool.not_true, Bool.false_eq_true,
      and_false, ↓reduceIte, innerType_ofSerializer]
  · intro value he
    constructor
    · simp only [optional.fromObject, descriptor, he, Bool.false_eq_true, ↓reduceIte,
        innerType_ofSerializer]
    · simp only [optional.toObject, descriptor, he, Bool.false_eq_true, false_and, ↓reduceIte,
        innerType_ofSerializer]

/-- C13 at a concrete input: with `defaults` set, an Optional of UInt64 turns
`undefined` into the inner default, the string `0`; without it, into `null`. -/
theorem C13_optional_canonical_witness :
    (∃ S, createType ⟨fun _ => none⟩ "Optional" { defaults := some true }
        [TypeArg.ofSerializer
          (intbuf (descriptor "UInt64" { defaults := some true } { bits := some 64 }))] = .ok S ∧
      S.toObject JsVal.undefined = .ok (JsVal.str "0")) ∧
    (∃ S, createType ⟨fun _ => none⟩ "Optional" {}
        [TypeArg.ofSerializer (intbuf (descriptor "UInt64" {} { bits := some 64 }))] = .ok S ∧
      S.toObject JsVal.undefined = .ok JsVal.null) := by
  obtain ⟨S, hS, _, _, h, _⟩ := C13_optional_canonical ⟨fun _ => none⟩ { defaults := some true }
    (intbuf (descriptor "UInt64" { defaults := some true } { bits := some 64 }))
  obtain ⟨S2, hS2, _, h2, _⟩ := C13_optional_canonical ⟨fun _ => none⟩ {}
    (intbuf (descriptor "UInt64" {} { bits := some 64 }))
  exact ⟨⟨S, hS, (h JsVal.undefined rfl rfl).trans rfl⟩, ⟨S2, hS2, h2 JsVal.undefined rfl rfl⟩⟩

/-- C15: for every Vector serializer over an inner serializer `T` built with
`defaults = true`, `toObject` of an absent value hands that value to
`T.toObject` and wraps the outcome in a one-element sequence: when
`T.toObject` returns `x` the result is `[x]`, never the empty sequence. -/
theorem C15_vector_defaults_singleton (p : Platform) (config : Config) (T : Serializer)
    (hd : config.defaults.getD false = true) :
    ∃ S, createType p "Vector" config [TypeArg.ofSerializer T] = .ok S ∧
      ∀ value, isEmpty value = true →
        S.toObject value = (T.toObject value).map (fun x => JsVal.arr [x]) ∧
        (∀ x, T.toObject value = .ok x → S.toObject value = .ok (JsVal.arr [x])) ∧
        S.toObject value ≠ .ok (JsVal.arr []) := by
  refine ⟨_, createType_vector p config T, ?_⟩
  intro value he
  have h1 : vector.toObject (descriptor "Vector" config { type := some (TypeArg.ofSerializer T) })
      value = (T.toObject value).map (fun x => JsVal.arr [x]) := by
    simp only [vector.toObject, descriptor, he, hd, and_self, ↓reduceIte, innerType_ofSerializer]
    cases T.toObject value <;> rfl
  refine ⟨h1, ?_, ?_⟩
  · intro x hx
    show vector.toObject _ value = _
    rw [h1, hx]
    rfl
  · show vector.toObject _ value ≠ _
    rw [h1]
    cases T.toObject value <;> simp [Except.map]

/-- C15 at a concrete input: with `defaults` set, a Vector of String turns
`null` into the one-element sequence holding the empty string. -/
theorem C15_vector_defaults_singleton_witness :
    ∃ S, createType ⟨fun _ => none⟩ "Vector" { defaults := some true }
        [TypeArg.ofSerializer (string (descriptor "String" { defaults := some true } {}))] = .ok S ∧
      S.toObject JsVal.null = .ok (JsVal.arr [JsVal.str ""]) := by
  obtain ⟨S, hS, h⟩ := C15_vector_defaults_singleton ⟨fun _ => none⟩ { defaults := some true }
    (string (descriptor "String" { defaults := some true } {})) rfl
  exact ⟨S, hS, (h JsVal.null rfl).2.1 (JsVal.str "") rfl⟩

/-- C19: for every Optional serializer over an inner serializer `T` and every
flag byte `f` at the head of the cursor, `fromByteBuffer` hands the rest of
the cursor to `T.fromByteBuffer` when `f = 1`, and for every other `f`
(2 or 255 as well as 0) returns `null` having consumed exactly that byte. -/
theorem C19_optional_flag_byte (p : Platform) (config : Config) (T : Serializer) :
    ∃ S, createType p "Optional" config [TypeArg.ofSerializer T] = .ok S ∧
      ∀ (b : ByteBuffer) (f : Byte) (rest : List Byte),
        (f = 1 → S.fromByteBuffer (b.withBytes (f :: rest)) =
          T.fromByteBuffer (b.withBytes rest)) ∧
        (f ≠ 1 → S.fromByteBuffer (b.withBytes (f :: rest)) =
          .ok (JsVal.null, b.withBytes rest)) := by
  refine ⟨_, createType_optional p config T, ?_⟩
  intro b f rest
  constructor
  · rintro rfl
    rfl
  · intro hf
    have hv : ¬ f.val = 1 := fun h => hf (Fin.ext h)
    simp [optional.fromByteBuffer, ByteBuffer.readUint8, ByteBuffer.withBytes, hv, bind,
      Except.bind, pure, Except.pure]

/-- C19 at a concrete input: an Optional of UInt8 reads the flag byte 2 as
the absent value and leaves the following byte unread. -/
theorem C19_optional_flag_byte_witness :
    ∃ S, createType ⟨fun _ => none⟩ "Optional" {}
        [TypeArg.ofSerializer (intbuf (descriptor "UInt8" {} { bits := some 8 }))] = .ok S ∧
      S.fromByteBuffer ⟨true, [2, 7]⟩ = .ok (JsVal.null, ⟨true, [7]⟩) ∧
      S.fromByteBuffer ⟨true, [255, 7]⟩ = .ok (JsVal.null, ⟨true, [7]⟩) := by
  obtain ⟨S, hS, h⟩ := C19_optional_flag_byte ⟨fun _ => none⟩ {}
    (intbuf (descriptor "UInt8" {} { bits := some 8 }))
  exact ⟨S, hS, (h ⟨true, []⟩ 2 [7]).2 (by decide), (h ⟨true, []⟩ 255 [7]).2 (by decide)⟩

theorem flatten_replicate_zeros (n : Nat) :
    (List.replicate n ['0', '0']).flatten = List.replicate (2 * n) '0' := by
  induction n with
  | zero => rfl
  | succ n ih =>
    have h2 : 2 * (n + 1) = (2 * n + 1) + 1 := by omega
    rw [List.replicate_succ, List.flatten_cons, ih, h2, List.replicate_succ, List.replicate_succ]
    rfl

theorem isoSeconds_zero : isoSeconds 0 = "1970-01-01T00:00:00" := by decide

/-- C14: with `defaults = true`, `toObject` of an absent value (`null` or
`undefined`) does not raise and returns the zero value of the type: the
string `0` for the 64-bit Integers and the number 0 for the Integers of 32
bits or fewer; the empty string for String, FixedString16 and FixedString32;
`1970-01-01T00:00:00` for Time; and for Bytes a string of exactly `2 * len`
characters `0` when `len` is fixed and the empty string when it is not. -/
theorem C14_defaults_zero_values (p : Platform) (config : Config)
    (hd : config.defaults.getD false = true) (value : JsVal) (he : isEmpty value = true) :
    (∀ (name : String) (signed : Bool) (bits : Nat), (name, signed, bits) ∈ integerTypes →
      ∃ S, createType p name config [] = .ok S ∧
        S.toObject value = .ok (if bits > 53 then JsVal.str "0" else JsVal.num 0)) ∧
    (∀ name ∈ ["String", "FixedString16", "FixedString32"],
      ∃ S, createType p name config [] = .ok S ∧ S.toObject value = .ok (JsVal.str "")) ∧
    (∃ S, createType p "Time" config [] = .ok S ∧
      S.toObject value = .ok (JsVal.str "1970-01-01T00:00:00")) ∧
    (∀ (name : String) (len : Option Nat), (name, len) ∈ bytesTypes →
      ∃ S, createType p name config [] = .ok S ∧
        ∃ zeros : String, S.toObject value = .ok (JsVal.str zeros) ∧
          zeros.data = List.replicate (2 * len.getD 0) '0') := by
  refine ⟨?_, ?_, ?_, ?_⟩
  · intro name signed bits ht
    refine ⟨_, createType_integer p config name signed bits ht, ?_⟩
    simp only [intbuf, intbuf.toObject, hd, he, and_self, ↓reduceIte, Option.getD_some]
    rfl
  · intro name hn
    simp only [List.mem_cons, List.mem_singleton, List.not_mem_nil, or_false] at hn
    rcases hn with rfl | rfl | rfl
    all_goals
      refine ⟨_, rfl, ?_⟩
      simp only [string, string.toObject, descriptor, hd, he, and_self, ↓reduceIte]
      rfl
  · refine ⟨_, rfl, ?_⟩
    simp only [time, time.toObject, descriptor, hd, he, and_self, ↓reduceIte, isoSeconds_zero]
    rfl
  · intro name len ht
    refine ⟨_, createType_bytes p config name len ht,
      String.mk ((List.replicate (len.getD 0) ['0', '0']).flatten), ?_, ?_⟩
    · simp only [bytebuf, bytebuf.toObject, hd, he, and_self, ↓reduceIte]
      rfl
    · exact flatten_replicate_zeros _

/-- C14 at a concrete input: with `defaults` set, UInt64 turns `null` into
the string `0` and FixedBytes16 into thirty-two characters `0`. -/
theorem C14_defaults_zero_values_witness :
    (∃ S, createType ⟨fun _ => none⟩ "UInt64" { defaults := some true } [] = .ok S ∧
      S.toObject JsVal.null = .ok (JsVal.str "0")) ∧
    (∃ S, createType ⟨fun _ => none⟩ "FixedBytes16" { defaults := some true } [] = .ok S ∧
      ∃ zeros : String, S.toObject JsVal.null = .ok (JsVal.str zeros) ∧
        zeros.data = List.replicate 32 '0') := by
  have h := C14_defaults_zero_values ⟨fun _ => none⟩ { defaults := some true } rfl JsVal.null rfl
  obtain ⟨S, hS, h1⟩ := h.1 "UInt64" false 64 (by decide)
  exact ⟨⟨S, hS, h1⟩, h.2.2.2 "FixedBytes16" (some 16) (by decide)⟩

theorem fdiv_thousand_floor (ms : Int) : Int.fdiv ms 1000 = ⌊(ms : ℚ) / 1000⌋ := by
  rw [Int.fdiv_eq_ediv ms (by decide : (0 : Int) ≤ 1000)]
  have h := Rat.floor_intCast_div_natCast ms 1000
  simpa using h.symm

/-- C18: for every Time serializer and every present canonical input,
`fromObject` returns a native number unchanged; returns `floor(ms / 1000)`
for a Date-like value whose `getTime()` is `ms`; and raises the
unknown-date-type error if and only if the value is neither a number, nor
Date-like, nor a string. -/
theorem C18_time_fromObject_forms (p : Platform) (config : Config) :
    ∃ S, createType p "Time" config [] = .ok S ∧
      (∀ n : Int, S.fromObject (JsVal.num n) = .ok (JsVal.num n)) ∧
      (∀ ms : Int, S.fromObject (JsVal.date ms) = .ok (JsVal.num ⌊(ms : ℚ) / 1000⌋)) ∧
      (∀ value, isEmpty value = false →
        ((∃ v, S.fromObject value = .error (Err.unknownDateType v)) ↔
          (value.isNumber = false ∧ value.hasGetTime = false ∧ value.isString = false)) ∧
        (value.isNumber = false ∧ value.hasGetTime = false ∧ value.isString = false →
          S.fromObject value = .error (Err.unknownDateType value))) := by
  refine ⟨_, rfl, fun n => rfl, fun ms => ?_, ?_⟩
  · rw [← fdiv_thousand_floor]
    rfl
  · intro value he
    have hv : validate value (descriptor "Time" config {}) = .ok () :=
      validate_plain value _ he rfl rfl
    cases value <;>
      simp [time, time.fromObject, hv, JsVal.isNumber, JsVal.hasGetTime, JsVal.isString, bind,
        Except.bind, pure, Except.pure, throw, throwThe, MonadExceptOf.throw]
    split <;> simp

/-- C18 at a concrete input: a Time serializer raises the unknown-date-type
error on the boolean `true`, and turns a Date of 1999 ms into 1 second. -/
theorem C18_time_fromObject_forms_witness :
    ∃ S, createType ⟨fun _ => none⟩ "Time" {} [] = .ok S ∧
      S.fromObject (JsVal.bool true) = .error (Err.unknownDateType (JsVal.bool true)) ∧
      S.fromObject (JsVal.date 1999) = .ok (JsVal.num ⌊((1999 : Int) : ℚ) / 1000⌋) := by
  obtain ⟨S, hS, _, h2, h3⟩ := C18_time_fromObject_forms ⟨fun _ => none⟩ {}
  exact ⟨S, hS, (h3 (JsVal.bool true) rfl).2 ⟨rfl, rfl, rfl⟩, h2 1999⟩

theorem decimalNat_ne_nil (n : Nat) : decimalNat n ≠ [] := by
  unfold decimalNat digitsLE
  split <;> simp

theorem parseInt_of_nat (value : JsVal) (n : Nat)
    (hs : jsString value = some (decimalString (Int.ofNat n))) :
    parseInt value = some (Int.ofNat n) := by
  have hb := BN_ofString_decimalString (Int.ofNat n)
  unfold parseInt
  rw [hs]
  simp only
  have hd : (decimalString (Int.ofNat n)).data = decimalNat n := rfl
  rcases hc : decimalNat n with _ | ⟨c, cs⟩
  · exact absurd hc (decimalNat_ne_nil n)
  · rw [hd, hc]
    rcases cs with _ | ⟨c2, cs2⟩
    · have hne : c ≠ '-' := decimalNat_ne_minus n c (by rw [hc]; exact List.mem_cons_self _ _)
      split
      · rename_i h; cases h
      · rename_i h
        simp only [List.cons.injEq, and_true] at h
        exact absurd h hne
      · exact hb
    · split
      · rename_i h; cases h
      · rename_i h; cases h
      · exact hb

theorem time_toObject_of_int (validation : Validation) (value : JsVal) (v : Int)
    (hne : isEmpty value = false) (hs : jsString value = some (decimalString v))
    (hlen : validation.len = none) (hmax : validation.maxLen = none)
    (hsigned : validation.signed = none) :
    time.toObject validation value =
      if 0 ≤ v ∧ v ≤ (2 : Int) ^ 32 - 1 then .ok (JsVal.str (isoSeconds v.toNat))
      else .error (Err.overflow validation.typeName value ((2 : Int) ^ 32 - 1) 0 false 32) := by
  have hi : (jsString value).bind BN.ofString = some v := by
    rw [hs]
    exact BN_ofString_decimalString v
  unfold time.toObject
  simp only [hne, Bool.false_eq_true, and_false, ↓reduceIte, pure_bind]
  rw [validate_plain value validation hne hlen hmax,
    noOverflow_of_int value (spreadBits validation 32) v hne hi]
  simp only [spreadBits, hsigned, Option.getD_none, Option.getD_some, Bool.false_eq_true,
    ↓reduceIte, maxUnsigned, one_mul]
  by_cases h : 0 ≤ v ∧ v ≤ (2 : Int) ^ 32 - 1
  · rw [if_pos h, if_neg (by omega)]
    obtain ⟨n, rfl⟩ := Int.eq_ofNat_of_zero_le h.1
    have hp := parseInt_of_nat value n hs
    simp only [bind, Except.bind, pure, Except.pure]
    rw [hp]
    rfl
  · rw [if_neg h, if_pos (by omega)]
    rfl

theorem bitLength_pow_le (fuel a : Nat) (ha : a ≠ 0) : 2 ^ (bitLength fuel a - 1) ≤ a := by
  induction fuel generalizing a with
  | zero => simp [bitLength]; omega
  | succ f ih =>
    simp only [bitLength, ha, ↓reduceIte, Nat.add_sub_cancel]
    by_cases h2 : a / 2 = 0
    · have hb : bitLength f (a / 2) = 0 := by
        rw [h2]
        cases f <;> simp [bitLength]
      rw [hb]
      simp
      omega
    · have h := ih (a / 2) h2
      by_cases hb : bitLength f (a / 2) = 0
      · rw [hb]
        simp
        omega
      · have e : bitLength f (a / 2) = (bitLength f (a / 2) - 1) + 1 := by omega
        rw [e, pow_succ]
        omega

theorem roundDouble_ge (a : Nat) (ha : 2 ^ 53 ≤ a) : 2 ^ 52 ≤ roundDouble a := by
  have hlt : ¬ a < 2 ^ 53 := by omega
  have hne : a ≠ 0 := by
    intro h
    rw [h] at ha
    norm_num at ha
  have hb := bitLength_pow_le a a hne
  have hq : 2 ^ 52 ≤ a / 2 ^ (bitLength a a - 53) * 2 ^ (bitLength a a - 53) := by
    by_cases hl : bitLength a a ≤ 53
    · have e0 : bitLength a a - 53 = 0 := by omega
      rw [e0]
      simp
      omega
    · have e1 : bitLength a a - 1 = (bitLength a a - 53) + 52 := by omega
      rw [e1, pow_add] at hb
      have hpos : 0 < 2 ^ (bitLength a a - 53) := Nat.pow_pos (by decide)
      have hdiv : 2 ^ 52 ≤ a / 2 ^ (bitLength a a - 53) := by
        rw [Nat.le_div_iff_mul_le hpos]
        rw [Nat.mul_comm]
        exact hb
      calc 2 ^ 52 = 2 ^ 52 * 1 := by simp
        _ ≤ a / 2 ^ (bitLength a a - 53) * 2 ^ (bitLength a a - 53) :=
          Nat.mul_le_mul hdiv hpos
  unfold roundDouble
  simp only [hlt, ↓reduceIte]
  split
  · calc 2 ^ 52 ≤ a / 2 ^ (bitLength a a - 53) * 2 ^ (bitLength a a - 53) := hq
      _ ≤ (a / 2 ^ (bitLength a a - 53) + 1) * 2 ^ (bitLength a a - 53) :=
        Nat.mul_le_mul_right _ (Nat.le_succ _)
  · exact hq

theorem shortestDecimal_rounds (x j : Nat) :
    shortestDecimal x j = x ∨ roundDouble (shortestDecimal x j) = x := by
  induction j with
  | zero => exact Or.inl rfl
  | succ j ih =>
    unfold shortestDecimal
    simp only
    split_ifs with h1 h2 h3 h4 h5 h6
    · exact Or.inr h1.1
    · exact Or.inr h1.2
    · exact Or.inr h1.1
    · exact Or.inr h1.2
    · exact Or.inr h5
    · exact Or.inr h6
    · exact ih

theorem shortestDecimal_ge (x j : Nat) (hx : 2 ^ 52 ≤ x) : 2 ^ 52 ≤ shortestDecimal x j := by
  rcases shortestDecimal_rounds x j with h | h
  · rw [h]
    exact hx
  · by_cases hs : shortestDecimal x j < 2 ^ 53
    · have e : roundDouble (shortestDecimal x j) = shortestDecimal x j := by
        unfold roundDouble
        simp only [hs, ↓reduceIte]
      rw [e] at h
      rw [h]
      exact hx
    · omega

theorem foldl_parseStep_none (l : List Char) : l.foldl parseStep none = none := by
  induction l with
  | nil => rfl
  | cons c cs ih => simpa [List.foldl_cons, parseStep] using ih

theorem foldl_parseStep_e (l1 l2 : List Char) (acc : Option Nat) :
    (l1 ++ 'e' :: l2).foldl parseStep acc = none := by
  rw [List.foldl_append, List.foldl_cons]
  have h : parseStep (List.foldl parseStep acc l1) 'e' = none := by
    cases List.foldl parseStep acc l1 <;> simp [parseStep]
  rw [h, foldl_parseStep_none]

theorem parseDigits_exponentText (d : Char) (rest : List Char) :
    parseDigits (exponentText (d :: rest)) = none := by
  unfold parseDigits exponentText
  simp only
  split
  · exact foldl_parseStep_e [d] _ _
  · rename_i frac _
    have e : d :: '.' :: stripZeros rest ++ 'e' :: '+' :: decimalNat rest.length =
        (d :: '.' :: stripZeros rest) ++ 'e' :: ('+' :: decimalNat rest.length) := by simp
    rw [e]
    exact foldl_parseStep_e _ _ _

theorem decimalNat_injective (m n : Nat) (h : decimalNat m = decimalNat n) : m = n := by
  have h1 := parseDigits_decimalNat m
  rw [h, parseDigits_decimalNat n] at h1
  exact (Option.some.inj h1).symm

/-- When the text of a number is a decimal numeral, the numeral is the
number's own below `2^53`, and is at least `2^52` from there on. -/
theorem numberText_decimal (a m : Nat) (h : numberText a = decimalNat m) :
    (a < 2 ^ 53 → m = a) ∧ (2 ^ 53 ≤ a → 2 ^ 52 ≤ m) := by
  constructor
  · intro ha
    simp only [numberText, ha, ↓reduceIte] at h
    exact (decimalNat_injective a m h).symm
  · intro ha
    have hlt : ¬ a < 2 ^ 53 := by omega
    simp only [numberText, hlt, ↓reduceIte] at h
    split at h
    · have hp := parseDigits_decimalNat m
      have hi : parseDigits ['I', 'n', 'f', 'i', 'n', 'i', 't', 'y'] = none := by decide
      rw [← h, hi] at hp
      cases hp
    · split at h
      · have e := decimalNat_injective _ _ h
        rw [← e]
        exact shortestDecimal_ge _ _ (roundDouble_ge a ha)
      · rename_i hlen
        rcases hd : decimalNat (shortestDecimal (roundDouble a)
            (decimalNat (roundDouble a)).length) with _ | ⟨d, rest⟩
        · rw [hd] at hlen
          simp at hlen
        · rw [hd] at h
          have hp := parseDigits_decimalNat m
          rw [← h, parseDigits_exponentText] at hp
          cases hp

theorem numberText_head (a : Nat) (t : List Char) : numberText a ≠ '-' :: t := by
  intro h
  have hdec : ∀ n : Nat, decimalNat n ≠ '-' :: t := by
    intro n hn
    exact decimalNat_ne_minus n '-' (by rw [hn]; exact List.mem_cons_self _ _) rfl
  simp only [numberText] at h
  split at h
  · exact hdec _ h
  · split at h
    · cases h
    · split at h
      · exact hdec _ h
      · rcases hd : decimalNat (shortestDecimal (roundDouble a)
            (decimalNat (roundDouble a)).length) with _ | ⟨d, rest⟩
        · rw [hd] at h
          simp [exponentText] at h
        · rw [hd] at h
          have hdm : d ≠ '-' := decimalNat_ne_minus _ d (by rw [hd]; exact List.mem_cons_self _ _)
          unfold exponentText at h
          simp only at h
          split at h
          · simp only [List.cons.injEq] at h
            exact hdm h.1
          · simp only [List.cons_append, List.cons.injEq] at h
            exact hdm h.1

/-- When a number prints as the decimal numeral of `w`: `w` is the number
itself below `2^53` in magnitude, and has the sign of the number and a
magnitude of at least `2^52` otherwise. -/
theorem numberString_decimal (v w : Int) (h : numberString v = decimalString w) :
    (v.natAbs < 2 ^ 53 → w = v) ∧ ((2 : Int) ^ 53 ≤ v → (2 : Int) ^ 52 ≤ w) ∧
      (v ≤ -(2 : Int) ^ 53 → w ≤ -(2 : Int) ^ 52) := by
  cases v with
  | ofNat n =>
    cases w with
    | ofNat m =>
      have ht : numberText n = decimalNat m := congrArg String.data h
      have hd := numberText_decimal n m ht
      refine ⟨fun hs => ?_, fun hv => ?_, fun hv => ?_⟩
      · have hn : n < 2 ^ 53 := hs
        rw [hd.1 hn]
      · have hn : 2 ^ 53 ≤ n := by
          have : ((2 ^ 53 : Nat) : Int) ≤ (n : Int) := by simpa using hv
          exact_mod_cast this
        have := hd.2 hn
        have h2 : ((2 ^ 52 : Nat) : Int) ≤ (m : Int) := by exact_mod_cast this
        simpa using h2
      · have : (0 : Int) ≤ Int.ofNat n := Int.ofNat_nonneg n
        have hp : (0 : Int) < (2 : Int) ^ 53 := by norm_num
        omega
    | negSucc m =>
      have ht : numberText n = '-' :: decimalNat (m + 1) := congrArg String.data h
      exact absurd ht (numberText_head n _)
  | negSucc n =>
    cases w with
    | ofNat m =>
      have ht : '-' :: numberText (n + 1) = decimalNat m := congrArg String.data h
      exact absurd rfl (decimalNat_ne_minus m '-' (by rw [← ht]; exact List.mem_cons_self _ _))
    | negSucc m =>
      have ht : numberText (n + 1) = decimalNat (m + 1) :=
        List.tail_eq_of_cons_eq (congrArg String.data h)
      have hd := numberText_decimal (n + 1) (m + 1) ht
      refine ⟨fun hs => ?_, fun hv => ?_, fun hv => ?_⟩
      · have hn : n + 1 < 2 ^ 53 := hs
        have := hd.1 hn
        have e : m = n := by omega
        rw [e]
      · have : Int.negSucc n < 0 := Int.negSucc_lt_zero n
        have hp : (0 : Int) < (2 : Int) ^ 53 := by norm_num
        omega
      · have hn : 2 ^ 53 ≤ n + 1 := by
          have h1 : Int.negSucc n = -((n : Int) + 1) := Int.negSucc_eq n
          rw [h1] at hv
          have : ((2 ^ 53 : Nat) : Int) ≤ ((n + 1 : Nat) : Int) := by
            push_cast
            have hp : ((2 : Int) ^ 53) = 9007199254740992 := by norm_num
            omega
          exact_mod_cast this
        have := hd.2 hn
        have h1 : Int.negSucc m = -((m : Int) + 1) := Int.negSucc_eq m
        rw [h1]
        have h2 : ((2 ^ 52 : Nat) : Int) ≤ ((m + 1 : Nat) : Int) := by exact_mod_cast this
        push_cast at h2
        have hp : ((2 : Int) ^ 52) = 4503599627370496 := by norm_num
        omega

/-- C20 (as stated) fails: the number `10^21` is above `2^32 - 1`, yet
`toObject` of a Time serializer raises no overflow error for it: the text of
that number is `1e+21`, which is not a decimal numeral, so the value is not
compared with the range as `10^21`. -/
theorem C20_time_toObject_counterexample :
    ∃ S, createType ⟨fun _ => none⟩ "Time" {} [] = .ok S ∧
      (1000000000000000000000 : Int) > (2 : Int) ^ 32 - 1 ∧
      jsString (JsVal.num 1000000000000000000000) = some "1e+21" ∧
      raisesOverflow (S.toObject (JsVal.num 1000000000000000000000)) = false :=
  ⟨_, rfl, by decide, by decide, by decide⟩

/-- C20 (amended): for every Time serializer built by the factory and every
integer `v`, given as its decimal string or as a number whose text form is a
decimal numeral (every number of magnitude below `2^53` prints as its own
numeral; from `10^21` on a number prints in exponent form), `toObject`
raises the overflow error if and only if `v < 0` or `v > 2^32 - 1` (the
range of an unsigned 32-bit integer), and otherwise returns the timestamp
text of `v` seconds; the two ends of the range give `1970-01-01T00:00:00`
and `2106-02-07T06:28:15`. -/
theorem C20_time_toObject_range (p : Platform) (config : Config) :
    ∃ S, createType p "Time" config [] = .ok S ∧
      (∀ (v : Int) (value : JsVal),
        (value = JsVal.num v ∧ ∃ w : Int, numberString v = decimalString w) ∨
          value = JsVal.str (decimalString v) →
        S.toObject value =
          if v < 0 ∨ v > (2 : Int) ^ 32 - 1
          then .error (Err.overflow "Time" value ((2 : Int) ^ 32 - 1) 0 false 32)
          else .ok (JsVal.str (isoSeconds v.toNat))) ∧
      (∀ v : Int, v.natAbs < 2 ^ 53 → numberString v = decimalString v) ∧
      S.toObject (JsVal.num 0) = .ok (JsVal.str "1970-01-01T00:00:00") ∧
      S.toObject (JsVal.num 4294967295) = .ok (JsVal.str "2106-02-07T06:28:15") := by
  have exact : ∀ (v : Int) (value : JsVal), isEmpty value = false →
      jsString value = some (decimalString v) →
      time.toObject (descriptor "Time" config {}) value =
        if v < 0 ∨ v > (2 : Int) ^ 32 - 1
        then .error (Err.overflow "Time" value ((2 : Int) ^ 32 - 1) 0 false 32)
        else .ok (JsVal.str (isoSeconds v.toNat)) := by
    intro v value hne hs
    rw [time_toObject_of_int (descriptor "Time" config {}) value v hne hs rfl rfl rfl]
    by_cases h : 0 ≤ v ∧ v ≤ (2 : Int) ^ 32 - 1
    · rw [if_pos h, if_neg (by omega)]
    · rw [if_neg h, if_pos (by omega)]
      rfl
  have key : ∀ (v : Int) (value : JsVal),
      (value = JsVal.num v ∧ ∃ w : Int, numberString v = decimalString w) ∨
        value = JsVal.str (decimalString v) →
      time.toObject (descriptor "Time" config {}) value =
        if v < 0 ∨ v > (2 : Int) ^ 32 - 1
        then .error (Err.overflow "Time" value ((2 : Int) ^ 32 - 1) 0 false 32)
        else .ok (JsVal.str (isoSeconds v.toNat)) := by
    intro v value hv
    rcases hv with ⟨rfl, w, hw⟩ | rfl
    · have hd := numberString_decimal v w hw
      by_cases hs : v.natAbs < 2 ^ 53
      · have e := hd.1 hs
        rw [e] at hw
        exact exact v _ rfl (congrArg some hw)
      · have hw2 : jsString (JsVal.num v) = some (decimalString w) := congrArg some hw
        have hout : (2 : Int) ^ 53 ≤ v ∨ v ≤ -(2 : Int) ^ 53 := by
          have hp : ((2 : Int) ^ 53) = 9007199254740992 := by norm_num
          have hn : (2 : Nat) ^ 53 = 9007199254740992 := by norm_num
          omega
        have hp52 : ((2 : Int) ^ 52) = 4503599627370496 := by norm_num
        have hp53 : ((2 : Int) ^ 53) = 9007199254740992 := by norm_num
        have hp32 : ((2 : Int) ^ 32) = 4294967296 := by norm_num
        have hwout : w < 0 ∨ w > (2 : Int) ^ 32 - 1 := by
          rcases hout with h | h
          · have := hd.2.1 h
            omega
          · have := hd.2.2 h
            omega
        have hvout : v < 0 ∨ v > (2 : Int) ^ 32 - 1 := by omega
        rw [time_toObject_of_int (descriptor "Time" config {}) (JsVal.num v) w rfl hw2 rfl rfl rfl,
          if_neg (by omega), if_pos hvout]
        rfl
    · exact exact v _ rfl rfl
  refine ⟨_, rfl, key, numberString_small, ?_, ?_⟩
  · exact (key 0 _ (Or.inl ⟨rfl, 0, by decide⟩)).trans ((if_neg (by norm_num)).trans
      (congrArg (fun s => Except.ok (JsVal.str s)) (by decide)))
  · exact (key 4294967295 _ (Or.inl ⟨rfl, 4294967295, by decide⟩)).trans
      ((if_neg (by norm_num)).trans (congrArg (fun s => Except.ok (JsVal.str s)) (by decide)))

/-- C20 (amended) at concrete inputs: a Time serializer rejects the numbers
`2^32`, `-1` and `2^64` (which prints as `18446744073709552000`) with the
overflow error. -/
theorem C20_time_toObject_range_witness :
    ∃ S, createType ⟨fun _ => none⟩ "Time" {} [] = .ok S ∧
      S.toObject (JsVal.num 4294967296) =
        .error (Err.overflow "Time" (JsVal.num 4294967296) ((2 : Int) ^ 32 - 1) 0 false 32) ∧
      S.toObject (JsVal.num (-1)) =
        .error (Err.overflow "Time" (JsVal.num (-1)) ((2 : Int) ^ 32 - 1) 0 false 32) ∧
      S.toObject (JsVal.num 18446744073709551616) =
        .error (Err.overflow "Time" (JsVal.num 18446744073709551616) ((2 : Int) ^ 32 - 1) 0
          false 32) := by
  obtain ⟨S, hS, h, _⟩ := C20_time_toObject_range ⟨fun _ => none⟩ {}
  exact ⟨S, hS,
    (h 4294967296 _ (Or.inl ⟨rfl, 4294967296, by decide⟩)).trans (if_pos (by norm_num)),
    (h (-1) _ (Or.inl ⟨rfl, -1, by decide⟩)).trans (if_pos (by norm_num)),
    (h 18446744073709551616 _ (Or.inl ⟨rfl, 18446744073709552000, by decide⟩)).trans
      (if_pos (by norm_num))⟩

/-- The state-passing `toObject` of Time returns what `time.toObject` returns. -/
theorem time_toObjectState_result (validation : Validation) (value : JsVal) :
    (time.toObjectState validation value).2 = time.toObject validation value := by
  unfold time.toObjectState time.toObject
  by_cases h : validation.defaults = true ∧ isEmpty value = true
  · simp only [h, and_self, ↓reduceIte]
    rfl
  · simp only [h, ↓reduceIte, pure_bind]
    cases validate value validation <;> rfl

/-- C17 fails on the code: a Time serializer built by the factory has no
`bits` in its descriptor; after one call of `toObject` on the number 0 the
descriptor holds `bits = 32`, so it is not equal to the descriptor before
the call. -/
theorem C17_time_toObject_writes_descriptor (config : Config) :
    (descriptor "Time" config {}).bits = none ∧
    (time.toObjectState (descriptor "Time" config {}) (JsVal.num 0)).1.bits = some 32 ∧
    (time.toObjectState (descriptor "Time" config {}) (JsVal.num 0)).1 ≠
      descriptor "Time" config {} ∧
    (time.toObjectState (descriptor "Time" config {}) (JsVal.num 0)).2 =
      .ok (JsVal.str "1970-01-01T00:00:00") := by
  have hv : validate (JsVal.num 0) (descriptor "Time" config {}) = .ok () :=
    validate_plain _ _ rfl rfl rfl
  have he : isEmpty (JsVal.num 0) = false := rfl
  have h1 : (time.toObjectState (descriptor "Time" config {}) (JsVal.num 0)).1 =
      spreadBits (descriptor "Time" config {}) 32 := by
    simp only [time.toObjectState, he, Bool.false_eq_true, and_false, ↓reduceIte, hv]
  refine ⟨rfl, ?_, ?_, ?_⟩
  · rw [h1]
    rfl
  · rw [h1]
    intro h
    have hb := congrArg Validation.bits h
    simp [spreadBits, descriptor] at hb
  · rw [time_toObjectState_result,
      time_toObject_of_int (descriptor "Time" config {}) (JsVal.num 0) 0 rfl rfl rfl rfl rfl,
      if_pos (by norm_num)]
    exact congrArg (fun s => Except.ok (JsVal.str s)) isoSeconds_zero

/-- Under a name of the `types` table that `customTypes` does not redefine,
the registry holds the constructor built from the table. -/
theorem registry_base (p : Platform) (config : Config) (name : String) (args : List TypeArg)
    (hc : config.customTypes.lookup name = none) (hn : name ≠ "config") :
    registry p config name args = createType p name config args ∧
    registryDescriptor p config name args =
      match types name args with
      | some (_, v) => .ok (descriptor name config v)
      | none => .error (Err.typeError "Type is not a function") := by
  unfold registry registryDescriptor registryType createType
  simp only [hn, ↓reduceIte, hc]
  rcases types name args with _ | ⟨fn, v⟩
  · exact ⟨rfl, rfl⟩
  · exact ⟨rfl, rfl⟩

/-- C16 (as stated) fails: with the recognized option `customTypes` defining
a type named `FixedBytes32` whose partial descriptor has `len = 16`, the
constructor registered under the base type name `FixedBytes32` builds its
serializer from a descriptor with `len = 16`, not 32, and the serializer
accepts sixteen bytes and rejects thirty-two. -/
theorem C16_registry_counterexample :
    (registryDescriptor ⟨fun _ => none⟩
      { customTypes := [("FixedBytes32",
          ⟨fun _ => .ok (fun _ base => base "FixedBytes16" [], { len := some 16 })⟩)] }
      "FixedBytes32" []).map (fun d => (d.typeName, d.len)) = .ok ("FixedBytes32", some 16) ∧
    ∃ S, registry ⟨fun _ => none⟩
      { customTypes := [("FixedBytes32",
          ⟨fun _ => .ok (fun _ base => base "FixedBytes16" [], { len := some 16 })⟩)] }
      "FixedBytes32" [] = .ok S ∧
      S.fromObject (JsVal.buf (List.replicate 16 0)) = .ok (JsVal.buf (List.replicate 16 0)) ∧
      S.fromObject (JsVal.buf (List.replicate 32 0)) =
        .error (Err.lengthNotEqual "FixedBytes16" 32 16) :=
  ⟨rfl, _, rfl, rfl, rfl⟩

/-- C16 (amended): for every configuration of recognized options and every
base type name that `customTypes` does not redefine, the constructor the
factory registers under that name is the one built from the `types` table,
and the descriptor it builds has `typeName` equal to the name, `defaults`
and `debug` equal to the configuration's values (false when omitted), and
the constraints declared for the name: `signed` and `bits` for the Integer
types, `len` for the Bytes types, `maxLen` for the String types, none for
Time, and the inner type for Vector and Optional. -/
theorem C16_registry_descriptor (p : Platform) (config : Config) :
    (∀ (name : String) (signed : Bool) (bits : Nat), (name, signed, bits) ∈ integerTypes →
      config.customTypes.lookup name = none →
      registry p config name [] = createType p name config [] ∧
      registryDescriptor p config name [] =
        .ok { typeName := name, defaults := config.defaults.getD false,
              debug := config.debug.getD false,
              signed := if signed then some true else none, bits := some bits }) ∧
    (∀ (name : String) (len : Option Nat), (name, len) ∈ bytesTypes →
      config.customTypes.lookup name = none →
      registry p config name [] = createType p name config [] ∧
      registryDescriptor p config name [] =
        .ok { typeName := name, defaults := config.defaults.getD false,
              debug := config.debug.getD false, len := len }) ∧
    (∀ (name : String) (maxLen : Option Nat),
      (name, maxLen) ∈ [("String", none), ("FixedString16", some 16), ("FixedString32", some 32)] →
      config.customTypes.lookup name = none →
      registry p config name [] = createType p name config [] ∧
      registryDescriptor p config name [] =
        .ok { typeName := name, defaults := config.defaults.getD false,
              debug := config.debug.getD false, maxLen := maxLen }) ∧
    (config.customTypes.lookup "Time" = none →
      registry p config "Time" [] = createType p "Time" config [] ∧
      registryDescriptor p config "Time" [] =
        .ok { typeName := "Time", defaults := config.defaults.getD false,
              debug := config.debug.getD false }) ∧
    (∀ (name : String) (T : TypeArg), name ∈ ["Vector", "Optional"] →
      config.customTypes.lookup name = none →
      registry p config name [T] = createType p name config [T] ∧
      registryDescriptor p config name [T] =
        .ok { typeName := name, defaults := config.defaults.getD false,
              debug := config.debug.getD false, type := some T }) := by
  refine ⟨?_, ?_, ?_, ?_, ?_⟩
  · intro name signed bits ht hc
    simp only [integerTypes, List.mem_cons, Prod.mk.injEq, List.mem_singleton, List.not_mem_nil,
      or_false] at ht
    rcases ht with ⟨rfl, rfl, rfl⟩ | ⟨rfl, rfl, rfl⟩ | ⟨rfl, rfl, rfl⟩ | ⟨rfl, rfl, rfl⟩ |
      ⟨rfl, rfl, rfl⟩ | ⟨rfl, rfl, rfl⟩ | ⟨rfl, rfl, rfl⟩ | ⟨rfl, rfl, rfl⟩
    all_goals
      have h := registry_base p config _ [] hc (by decide)
      exact ⟨h.1, h.2⟩
  · intro name len ht hc
    simp only [bytesTypes, List.mem_cons, Prod.mk.injEq, List.mem_singleton, List.not_mem_nil,
      or_false] at ht
    rcases ht with ⟨rfl, rfl⟩ | ⟨rfl, rfl⟩ | ⟨rfl, rfl⟩ | ⟨rfl, rfl⟩ | ⟨rfl, rfl⟩ | ⟨rfl, rfl⟩ |
      ⟨rfl, rfl⟩
    all_goals
      have h := registry_base p config _ [] hc (by decide)
      exact ⟨h.1, h.2⟩
  · intro name maxLen ht hc
    simp only [List.mem_cons, Prod.mk.injEq, List.mem_singleton, List.not_mem_nil,
      or_false] at ht
    rcases ht with ⟨rfl, rfl⟩ | ⟨rfl, rfl⟩ | ⟨rfl, rfl⟩
    all_goals
      have h := registry_base p config _ [] hc (by decide)
      exact ⟨h.1, h.2⟩
  · intro hc
    have h := registry_base p config "Time" [] hc (by decide)
    exact ⟨h.1, h.2⟩
  · intro name T hn hc
    simp only [List.mem_cons, List.mem_singleton, List.not_mem_nil, or_false] at hn
    rcases hn with rfl | rfl
    all_goals
      have h := registry_base p config _ [T] hc (by decide)
      exact ⟨h.1, h.2⟩

/-- C16 (amended) at a concrete input: with `defaults` set and no custom
types, the constructor registered under `Int16` builds from the descriptor
with `signed = true`, `bits = 16` and `defaults = true`. -/
theorem C16_registry_descriptor_witness :
    registryDescriptor ⟨fun _ => none⟩ { defaults := some true } "Int16" [] =
      .ok { typeName := "Int16", defaults := true, debug := false,
            signed := some true, bits := some 16 } :=
  ((C16_registry_descriptor ⟨fun _ => none⟩ { defaults := some true }).1 "Int16" true 16
    (by decide) rfl).2

end FCBuffer
